import Mathlib

/-!
# Page interaction script (`src/script.js`)

A shallow embedding of the single `DOMContentLoaded` handler of `src/script.js`
and of every callback it registers, followed by the proofs of the properties of
the specification.

Modelling choices.

* The document is the list `elems` of its elements in document order, from
  `document.body` (index `0`) downwards; an element is named by its index.  Each
  element carries its tag, its class list, a pointer to its parent and the inline
  style properties the script writes.  Two variables of the script may name the
  same element.
* `document.querySelector` / `querySelectorAll` are evaluated on that list: first
  match, respectively all matches, in document order.  The descendant selector
  `.video-background video` walks the parent pointers.
* A JavaScript variable that may hold `null` is an `Option Nat`.  Every handler
  runs in the `Option` monad; `none` is the `TypeError` raised by reading a
  property of `null`.  `document.body` and `document.head` always exist.
* `setTimeout` / `clearTimeout` are a queue of pending timers with fresh handles;
  the event `tick` lets one millisecond pass and runs the callbacks that are due,
  oldest first.  The event loop appends every timer callback it invokes to the
  trace `fired`.
* Promises returned by `play()` are entries of `pendingPlays`; the event
  `playSettled` runs the `then` or the `catch` callback of one of them.
* Numbers: a JavaScript number is an IEEE 754 double, modelled by `Num`: a finite
  double is given by its exact rational value, and every arithmetic operation
  rounds the exact result to the nearest double, ties to even (`toDouble`).
  The sign of zero is not kept; nothing in the script observes it.  Viewport
  sizes are naturals and pointer coordinates are finite doubles.
* A `click`, `touchstart` or `touchend` has a target element and bubbles: the
  listeners of the buttons on the path from the target to the root run, innermost
  first, then the listener of the document.
* The text of a created `style` element is kept rule by rule.
* `console.log` calls, and the listeners that only log (`loadstart`,
  `loadedmetadata`, `playing`), do not change the page and are left out.
-/

namespace Demo

/-! ## Data model -/

/-- The value of the inline `transform` property: a literal text written by the
script (`''`, `'scale(0.95)'`, ...) or a translation by `x` and `y` pixels (the template
literal of line 164). -/
inductive Transform where
  | css (text : String)
  | translate (x y : ℚ)
deriving DecidableEq

/-- Inline style (`element.style`): the properties the script assigns.  The empty
string is an unset property. -/
structure Style where
  display : String
  opacity : String
  background : String
  backgroundSize : String
  animation : String
  animationPlayState : String
  transform : Transform
deriving DecidableEq

/-- An element of the document. -/
structure Elem where
  tag : String
  classes : List String
  parent : Option Nat
  style : Style
deriving DecidableEq

/-- One declaration of a CSS rule. -/
structure Decl where
  property : String
  value : String
  important : Bool
deriving DecidableEq

/-- One CSS rule: a selector list and its declarations. -/
structure CssRule where
  selectors : List String
  decls : List Decl
deriving DecidableEq

/-- The text content of a created `style` element, rule by rule. -/
abbrev StyleSheet := List CssRule

/-- What the handler reads from the browser when `DOMContentLoaded` fires. -/
structure Page where
  innerWidth : Nat
  innerHeight : Nat
  /-- The value of `'ontouchstart' in window || navigator.maxTouchPoints > 0`. -/
  hasTouch : Bool
  /-- The value of `window.matchMedia('(prefers-reduced-motion: reduce)').matches`. -/
  reducedMotion : Bool
  /-- The video's `readyState`. -/
  readyState : Nat
  videoPaused : Bool
  elems : List Elem

/-- The callbacks handed to `setTimeout`. -/
inductive TimerAction where
  /-- Line 83, 10000 ms: the video-load fallback. -/
  | fallback
  /-- Line 133, 100 ms: second stage of the button press animation. -/
  | btnGrow (b : Nat)
  /-- Line 135, 150 ms: last stage of the button press animation. -/
  | btnReset (b : Nat)
  /-- Line 171, 500 ms: after an orientation change. -/
  | orient
  /-- Line 211, 250 ms: the debounced resize body. -/
  | resize
deriving DecidableEq

/-- A pending timer: its handle, the time it is due, its callback. -/
structure Timer where
  id : Nat
  due : Nat
  action : TimerAction
deriving DecidableEq

/-- The three places where the script calls `play()`. -/
inductive PlayOrigin where
  /-- Line 56, in the `loadeddata` listener. -/
  | loadeddata
  /-- Line 74, in the `visibilitychange` listener. -/
  | resume
  /-- Line 96, at load when `readyState >= 3`. -/
  | immediate
deriving DecidableEq

/-- The constants of the handler's closure, fixed when the handler returns, and
which listeners it registered. -/
structure Closure where
  isTouchDevice : Bool
  videoBackground : Option Nat
  animatedBg : Option Nat
  videoContainer : Option Nat
  /-- The branch of line 18 was taken: the listeners on the video, the
  `visibilitychange` listener and the fallback timer exist. -/
  desktop : Bool
  cards : List Nat
  buttons : List Nat
  skillBars : List Nat
  /-- The `mousemove` listener of line 155 is registered. -/
  parallax : Bool
  /-- The document `touchstart` / `touchmove` listeners of lines 251-261 are
  registered. -/
  swipe : Bool
deriving DecidableEq

/-- The state of the page after the handler has run. -/
structure St where
  c : Closure
  innerWidth : Nat
  innerHeight : Nat
  elems : List Elem
  /-- The `style` elements appended to `document.head` by the script. -/
  appended : List StyleSheet
  startX : ℚ
  startY : ℚ
  resizeTimeout : Option Nat
  now : Nat
  nextTimer : Nat
  timers : List Timer
  /-- Trace of the event loop: the timer callbacks invoked so far, with the time. -/
  fired : List (Nat × TimerAction)
  pendingPlays : List PlayOrigin
  videoPaused : Bool
  /-- Whether the listener of the last dispatched event called `preventDefault`. -/
  defaultPrevented : Bool

/-! ## JavaScript numbers -/

/-- A JavaScript number: a finite double given by its exact value, an infinity, or
`NaN`.  The value `fin q` stands for a double when `IsDouble q`; the arithmetic
operations round their exact result with `toDouble`. -/
inductive Num where
  | fin (q : ℚ)
  | inf (negative : Bool)
  | nan
deriving DecidableEq

/-- Round a rational to the nearest integer, ties to the even one. -/
def roundHalfEven (x : ℚ) : ℤ :=
  let f := ⌊x⌋
  let r := x - f
  if r < 1 / 2 then f
  else if 1 / 2 < r then f + 1
  else if f % 2 = 0 then f else f + 1

/-- The exponent of the unit in the last place of the doubles around `a > 0`: 53
bits of precision, and `2 ^ (-1074)` for the subnormal numbers. -/
def exponentOf (a : ℚ) : ℤ :=
  max (Int.log 2 a - 52) (-1074)

/-- Round `a > 0` to the nearest multiple of its unit in the last place. -/
def roundPos (a : ℚ) : ℚ :=
  (roundHalfEven (a / 2 ^ exponentOf a) : ℚ) * 2 ^ exponentOf a

/-- The largest finite double. -/
def maxDouble : ℚ := (2 ^ 53 - 1) * 2 ^ 971

/-- The double nearest to the exact value `q` (round to nearest, ties to even);
beyond the largest finite double the result is an infinity. -/
def toDouble (q : ℚ) : Num :=
  if q = 0 then Num.fin 0
  else if maxDouble < roundPos |q| then Num.inf (decide (q < 0))
  else Num.fin (if q < 0 then -roundPos |q| else roundPos |q|)

/-- The rational `q` is the value of a finite double. -/
def IsDouble (q : ℚ) : Prop :=
  ∃ m e : ℤ, |m| < 2 ^ 53 ∧ -1074 ≤ e ∧ e ≤ 971 ∧ q = m * 2 ^ e

/-- JavaScript `a + b`. -/
def Num.add : Num → Num → Num
  | Num.fin a, Num.fin b => toDouble (a + b)
  | Num.fin _, Num.inf t => Num.inf t
  | Num.inf s, Num.fin _ => Num.inf s
  | Num.inf s, Num.inf t => if s = t then Num.inf s else Num.nan
  | _, _ => Num.nan

/-- JavaScript `a - b`. -/
def Num.sub : Num → Num → Num
  | Num.fin a, Num.fin b => toDouble (a - b)
  | Num.fin _, Num.inf t => Num.inf (!t)
  | Num.inf s, Num.fin _ => Num.inf s
  | Num.inf s, Num.inf t => if s = t then Num.nan else Num.inf s
  | _, _ => Num.nan

/-- JavaScript `a * b`. -/
def Num.mul : Num → Num → Num
  | Num.fin a, Num.fin b => toDouble (a * b)
  | Num.fin a, Num.inf t => if a = 0 then Num.nan else Num.inf (decide (a < 0) != t)
  | Num.inf s, Num.fin b => if b = 0 then Num.nan else Num.inf (s != decide (b < 0))
  | Num.inf s, Num.inf t => Num.inf (s != t)
  | _, _ => Num.nan

/-- JavaScript `a / b`; a zero divisor is `+0`. -/
def Num.div : Num → Num → Num
  | Num.fin a, Num.fin b =>
    if b = 0 then (if a = 0 then Num.nan else Num.inf (decide (a < 0)))
    else toDouble (a / b)
  | Num.fin _, Num.inf _ => Num.fin 0
  | Num.inf s, Num.fin b => Num.inf (s != decide (b < 0))
  | _, _ => Num.nan

/-- JavaScript `Math.abs(a)`. -/
def Num.abs : Num → Num
  | Num.fin a => Num.fin |a|
  | Num.inf _ => Num.inf false
  | Num.nan => Num.nan

/-- JavaScript `a > b`. -/
def Num.gt : Num → Num → Bool
  | Num.fin a, Num.fin b => decide (b < a)
  | Num.fin _, Num.inf t => t
  | Num.inf s, Num.fin _ => !s
  | Num.inf s, Num.inf t => !s && t
  | _, _ => false

/-! ## Selectors -/

/-- Walk up the parent chain of element `i`: does a proper ancestor carry class
`c`?  `fuel` bounds the walk by the size of the document. -/
def hasAncestorWithClass (els : List Elem) (c : String) : Nat → Nat → Bool
  | 0, _ => false
  | fuel + 1, i =>
    match els[i]? with
    | none => false
    | some e =>
      match e.parent with
      | none => false
      | some j =>
        match els[j]? with
        | none => false
        | some a => decide (c ∈ a.classes) || hasAncestorWithClass els c fuel j

/-- The element at index `i` matches the class selector `.c`. -/
def matchesClass (els : List Elem) (c : String) (i : Nat) : Bool :=
  match els[i]? with
  | none => false
  | some e => decide (c ∈ e.classes)

/-- The element at index `i` matches `.video-background video`. -/
def matchesVideo (els : List Elem) (i : Nat) : Bool :=
  match els[i]? with
  | none => false
  | some e => decide (e.tag = "video") &&
      hasAncestorWithClass els "video-background" els.length i

/-- First match of `document.querySelector('.c')`. -/
def querySelectorClass (c : String) (els : List Elem) : Option Nat :=
  (List.range els.length).find? (matchesClass els c)

/-- All matches of `document.querySelectorAll('.c')`. -/
def querySelectorAllClass (c : String) (els : List Elem) : List Nat :=
  (List.range els.length).filter (matchesClass els c)

/-- First match of `document.querySelector('.video-background video')`. -/
def querySelectorVideo (els : List Elem) : Option Nat :=
  (List.range els.length).find? (matchesVideo els)

/-- The propagation path of an event: the target and its ancestors, innermost
first.  `fuel` bounds the walk by the size of the document. -/
def eventPath (els : List Elem) : Nat → Nat → List Nat
  | 0, _ => []
  | fuel + 1, i =>
    match els[i]? with
    | none => []
    | some e =>
      match e.parent with
      | none => [i]
      | some j => i :: eventPath els fuel j

/-! ## Elementary updates -/

/-- Replace the element at index `i` by its image under `f`. -/
def modifyAt (f : Elem → Elem) : Nat → List Elem → List Elem
  | _, [] => []
  | 0, e :: es => f e :: es
  | i + 1, e :: es => e :: modifyAt f i es

/-- Assignment to properties of `element.style`. -/
def St.setStyle (s : St) (i : Nat) (f : Style → Style) : St :=
  { s with elems := modifyAt (fun e => { e with style := f e.style }) i s.elems }

/-- The method `element.classList.add(c)`. -/
def St.addClass (s : St) (i : Nat) (c : String) : St :=
  let add : Elem → Elem := fun e =>
    if c ∈ e.classes then e else { e with classes := e.classes ++ [c] }
  { s with elems := modifyAt add i s.elems }

/-- The method `element.classList.contains(c)`. -/
def St.hasClass (s : St) (i : Nat) (c : String) : Bool :=
  matchesClass s.elems c i

/-- The inline style of element `i`. -/
def St.styleOf (s : St) (i : Nat) : Option Style :=
  (s.elems[i]?).map (fun e => e.style)

/-- The call `setTimeout(action, delay)`: returns the new state and the handle. -/
def St.setTimeout (s : St) (a : TimerAction) (delay : Nat) : St × Nat :=
  ({ s with timers := s.timers ++ [⟨s.nextTimer, s.now + delay, a⟩],
            nextTimer := s.nextTimer + 1 }, s.nextTimer)

/-- The call `clearTimeout(handle)`; a handle that is `undefined` clears nothing. -/
def St.clearTimeout (s : St) (h : Option Nat) : St :=
  { s with timers := s.timers.filter (fun t => decide (some t.id ≠ h)) }

/-- Index of `document.body` in `elems`. -/
def bodyIdx : Nat := 0

/-! ## The style sheets the script creates -/

/-- Lines 189-203: the text of the style element for touch devices and small
screens. -/
def mobileSheet : StyleSheet :=
  [ ⟨[".card"], [⟨"animation-duration", "0.6s", true⟩]⟩,
    ⟨[".header h1"], [⟨"animation-duration", "1s", true⟩]⟩,
    ⟨[".floating-shape"], [⟨"animation-duration", "4s", true⟩]⟩,
    ⟨[".video-background"], [⟨"display", "none", true⟩]⟩ ]

/-- Lines 266-283: the text of the style element for reduced motion. -/
def reducedMotionSheet : StyleSheet :=
  [ ⟨["*", "*::before", "*::after"],
      [⟨"animation-duration", "0.01ms", true⟩,
       ⟨"animation-iteration-count", "1", true⟩,
       ⟨"transition-duration", "0.01ms", true⟩]⟩,
    ⟨[".floating-shape"], [⟨"animation", "none", true⟩]⟩,
    ⟨[".typewriter"], [⟨"animation", "none", true⟩, ⟨"border-right", "none", true⟩]⟩,
    ⟨[".video-background"], [⟨"display", "none", true⟩]⟩ ]

/-- The call `document.head.appendChild(style)`. -/
def St.appendSheet (s : St) (sheet : StyleSheet) : St :=
  { s with appended := s.appended ++ [sheet] }

/-! ## The `DOMContentLoaded` handler -/

/-- The body style assigned on lines 105-107. -/
def gradientBody (st : Style) : Style :=
  { st with background := "linear-gradient(-45deg, #ff9a9e, #fecfef, #f093fb, #f5576c)",
            backgroundSize := "400% 400%",
            animation := "gradientShift 15s ease infinite" }

/-- Lines 18-108: the video branch of the handler. -/
def loadVideo (p : Page) (s : St) : Option St :=
  if s.c.videoBackground.isSome && decide (768 < p.innerWidth) then do
    -- `videoBackground.addEventListener(...)`: the listeners are recorded by
    -- `Closure.desktop`
    let _ ← s.c.videoBackground
    let s := (s.setTimeout TimerAction.fallback 10000).1
    if 3 ≤ p.readyState then
      pure { s with pendingPlays := s.pendingPlays ++ [PlayOrigin.immediate] }
    else
      pure s
  else if s.c.videoBackground.isSome then do
    let videoContainer ← s.c.videoContainer
    let s := s.setStyle videoContainer (fun st => { st with display := "none" })
    pure (s.setStyle bodyIdx gradientBody)
  else
    pure s

/-- Lines 241-244: every skill bar starts paused. -/
def pauseSkillBars (bars : List Nat) (s : St) : St :=
  bars.foldl (fun s bar => s.setStyle bar (fun st => { st with animationPlayState := "paused" })) s

/-- The closure the handler builds from the page (lines 4, 11-13, 18, 111, 128,
154, 230, 247). -/
def closureOf (p : Page) : Closure :=
  let videoBackground := querySelectorVideo p.elems
  { isTouchDevice := p.hasTouch
    videoBackground := videoBackground
    animatedBg := querySelectorClass "animated-bg" p.elems
    videoContainer := querySelectorClass "video-background" p.elems
    desktop := videoBackground.isSome && decide (768 < p.innerWidth)
    cards := querySelectorAllClass "card" p.elems
    buttons := querySelectorAllClass "animated-btn" p.elems
    skillBars := querySelectorAllClass "skill-progress" p.elems
    parallax := !p.hasTouch && decide (768 < p.innerWidth)
    swipe := p.hasTouch }

/-- The page before the handler has changed anything. -/
def initialSt (p : Page) : St :=
  { c := closureOf p
    innerWidth := p.innerWidth
    innerHeight := p.innerHeight
    elems := p.elems
    appended := []
    startX := 0
    startY := 0
    resizeTimeout := none
    now := 0
    nextTimer := 1
    timers := []
    fired := []
    pendingPlays := []
    videoPaused := p.videoPaused
    defaultPrevented := false }

/-- Lines 186-285: what the handler changes after the video branch. -/
def loadRest (p : Page) (s : St) : St :=
  -- lines 186-205
  let s := if s.c.isTouchDevice || decide (p.innerWidth ≤ 768) then s.appendSheet mobileSheet else s
  -- lines 229-244
  let s := pauseSkillBars s.c.skillBars s
  -- lines 264-285
  if p.reducedMotion then s.appendSheet reducedMotionSheet else s

/-- The `DOMContentLoaded` handler, lines 2-286. -/
def load (p : Page) : Option St := do
  let s ← loadVideo p (initialSt p)
  pure (loadRest p s)

/-! ## Callbacks -/

/-- The guarded assignment `if (animatedBg) { animatedBg.style.opacity = value; }`
of lines 34-36, 48-50, 62-64 and 87-89. -/
def setAnimatedOpacity (value : String) (s : St) : St :=
  match s.c.animatedBg with
  | some animatedBg => s.setStyle animatedBg (fun st => { st with opacity := value })
  | none => s

/-- Lines 30-37: the `canplay` listener; `this` is the video. -/
def onCanplay (s : St) : Option St := do
  let self ← s.c.videoBackground
  let s := s.addClass self "loaded"
  let s := s.setStyle self (fun st => { st with opacity := "1" })
  pure (setAnimatedOpacity "0" s)

/-- Lines 47-50, 61-64 and 86-89: hide the video, reveal the animated background. -/
def fallbackToAnimated (s : St) : Option St := do
  let videoBackground ← s.c.videoBackground
  let s := s.setStyle videoBackground (fun st => { st with display := "none" })
  pure (setAnimatedOpacity "1" s)

/-- Lines 43-51: the `error` listener; `this` is the video. -/
def onError (s : St) : Option St :=
  fallbackToAnimated s

/-- Lines 54-66: the `loadeddata` listener calls `this.play()`. -/
def onLoadeddata (s : St) : Option St := do
  let _ ← s.c.videoBackground
  pure { s with pendingPlays := s.pendingPlays ++ [PlayOrigin.loadeddata] }

/-- The `then` / `catch` callbacks of the three `play()` calls (lines 56-65,
74-78, 96-98). -/
def onPlaySettled (o : PlayOrigin) (ok : Bool) (s : St) : Option St :=
  match o, ok with
  | _, true => pure { s with videoPaused := false }
  | PlayOrigin.loadeddata, false => fallbackToAnimated s
  | PlayOrigin.resume, false => pure s
  | PlayOrigin.immediate, false => pure s

/-- Lines 69-80: the `visibilitychange` listener; `hidden` is `document.hidden`. -/
def onVisibilitychange (hidden : Bool) (s : St) : Option St := do
  let _ ← s.c.videoBackground
  if hidden then
    pure { s with videoPaused := true }
  else
    pure { s with pendingPlays := s.pendingPlays ++ [PlayOrigin.resume] }

/-- Lines 83-91: the callback of the 10000 ms timer. -/
def onFallbackTimer (s : St) : Option St := do
  let videoBackground ← s.c.videoBackground
  if !s.hasClass videoBackground "loaded" then
    fallbackToAnimated s
  else
    pure s

/-- Lines 130-139: the `click` listener of button `b`. -/
def onClick (b : Nat) (s : St) : St :=
  let s := { s with defaultPrevented := true }
  let s := s.setStyle b (fun st => { st with transform := Transform.css "scale(0.95)" })
  (s.setTimeout (TimerAction.btnGrow b) 100).1

/-- Lines 133-138: the callback of the 100 ms timer of button `b`. -/
def onBtnGrow (b : Nat) (s : St) : St :=
  let s := s.setStyle b (fun st => { st with transform := Transform.css "scale(1.1)" })
  (s.setTimeout (TimerAction.btnReset b) 150).1

/-- Lines 135-137: the callback of the 150 ms timer of button `b`. -/
def onBtnReset (b : Nat) (s : St) : St :=
  s.setStyle b (fun st => { st with transform := Transform.css "" })

/-- Lines 143-145: the `touchstart` listener of button `b`. -/
def onBtnTouchstart (b : Nat) (s : St) : St :=
  s.setStyle b (fun st => { st with transform := Transform.css "scale(0.98)" })

/-- Lines 147-149: the `touchend` listener of button `b`. -/
def onBtnTouchend (b : Nat) (s : St) : St :=
  s.setStyle b (fun st => { st with transform := Transform.css "" })

/-- Lines 161-163: the offset of the shape at position `index`, in doubles. -/
def parallaxOffset (mouse : Num) (index : Nat) : Num :=
  let speed := Num.mul (Num.add (Num.fin index) (Num.fin 1)) (Num.fin (1 / 2))
  Num.mul (Num.mul (Num.sub mouse (Num.fin (1 / 2))) speed) (Num.fin 50)

/-- Line 164: the assignment of the template literal to `shape.style.transform`.
With an offset that is not finite the text is not a valid transform and the
assignment is ignored. -/
def setTranslate (shape : Nat) (x y : Num) (s : St) : St :=
  match x, y with
  | Num.fin x, Num.fin y =>
    s.setStyle shape (fun st => { st with transform := Transform.translate x y })
  | _, _ => s

/-- Lines 160-165: `shapes.forEach((shape, index) => ...)`, from position `index`. -/
def moveShapes (mouseX mouseY : Num) : Nat → List Nat → St → St
  | _, [], s => s
  | index, shape :: rest, s =>
    moveShapes mouseX mouseY (index + 1) rest
      (setTranslate shape (parallaxOffset mouseX index) (parallaxOffset mouseY index) s)

/-- Lines 155-166: the `mousemove` listener. -/
def onMousemove (clientX clientY : ℚ) (s : St) : St :=
  let shapes := querySelectorAllClass "floating-shape" s.elems
  let mouseX := Num.div (Num.fin clientX) (Num.fin s.innerWidth)
  let mouseY := Num.div (Num.fin clientY) (Num.fin s.innerHeight)
  moveShapes mouseX mouseY 0 shapes s

/-- Lines 173-176 and 213-217: clear the transform of every floating shape. -/
def resetShapes (s : St) : St :=
  (querySelectorAllClass "floating-shape" s.elems).foldl
    (fun s shape => s.setStyle shape (fun st => { st with transform := Transform.css "" })) s

/-- Lines 170-184: the `orientationchange` listener. -/
def onOrientationchange (s : St) : St :=
  (s.setTimeout TimerAction.orient 500).1

/-- Lines 171-183: the callback of the 500 ms timer. -/
def onOrientTimer (s : St) : St :=
  let s := resetShapes s
  if s.innerWidth ≤ 768 then
    match querySelectorClass "video-background" s.elems with
    | some videoBg => s.setStyle videoBg (fun st => { st with display := "none" })
    | none => s
  else s

/-- Lines 209-227: the `resize` listener. -/
def onResize (s : St) : St :=
  let s := s.clearTimeout s.resizeTimeout
  let r := s.setTimeout TimerAction.resize 250
  { r.1 with resizeTimeout := some r.2 }

/-- Lines 211-226: the debounced body, the callback of the 250 ms timer. -/
def onResizeTimer (s : St) : St :=
  if s.innerWidth ≤ 768 then
    let s := resetShapes s
    match querySelectorClass "video-background" s.elems with
    | some videoBg => s.setStyle videoBg (fun st => { st with display := "none" })
    | none => s
  else if 768 < s.innerWidth then
    match querySelectorClass "video-background" s.elems with
    | some videoBg => s.setStyle videoBg (fun st => { st with display := "block" })
    | none => s
  else s

/-- Lines 112-117: the callback of the card observer. -/
def onCardsIntersect (entries : List (Nat × Bool)) (s : St) : St :=
  entries.foldl (fun s entry =>
    if entry.2 then s.setStyle entry.1 (fun st => { st with animation := "slideInRight 1s ease-out" })
    else s) s

/-- Lines 231-236: the callback of the skill-bar observer. -/
def onSkillsIntersect (entries : List (Nat × Bool)) (s : St) : St :=
  entries.foldl (fun s entry =>
    if entry.2 then s.setStyle entry.1 (fun st => { st with animationPlayState := "running" })
    else s) s

/-- Lines 251-254: the document `touchstart` listener; the coordinates are those
of `e.touches[0]`. -/
def onTouchstart (clientX clientY : ℚ) (s : St) : St :=
  { s with startY := clientY, startX := clientX }

/-- Line 258: the test of the `touchmove` listener, in doubles. -/
def swipeIsVertical (startX startY clientX clientY : ℚ) : Bool :=
  Num.gt (Num.abs (Num.sub (Num.fin clientY) (Num.fin startY)))
    (Num.abs (Num.sub (Num.fin clientX) (Num.fin startX)))

/-- Lines 256-261: the document `touchmove` listener. -/
def onTouchmove (clientX clientY : ℚ) (s : St) : St :=
  if swipeIsVertical s.startX s.startY clientX clientY then
    { s with defaultPrevented := true }
  else s

/-! ## Event loop -/

/-- Run the callback of a timer that is due and record it in the trace. -/
def fire (s : St) (t : Timer) : Option St :=
  let s := { s with fired := s.fired ++ [(s.now, t.action)] }
  match t.action with
  | TimerAction.fallback => onFallbackTimer s
  | TimerAction.btnGrow b => pure (onBtnGrow b s)
  | TimerAction.btnReset b => pure (onBtnReset b s)
  | TimerAction.orient => pure (onOrientTimer s)
  | TimerAction.resize => pure (onResizeTimer s)

/-- One millisecond passes: the timers now due leave the queue and their callbacks
run, oldest first. -/
def tick (s : St) : Option St :=
  let now := s.now + 1
  let due := s.timers.filter (fun t => decide (t.due ≤ now))
  let rest := s.timers.filter (fun t => !decide (t.due ≤ now))
  due.foldlM fire { s with now := now, timers := rest }

/-- What can happen to the page after the handler has run. -/
inductive Event where
  | canplay
  | error
  | loadeddata
  /-- The promise of a `play()` call settles: resolved (`true`) or rejected. -/
  | playSettled (o : PlayOrigin) (ok : Bool)
  | visibilitychange (hidden : Bool)
  /-- A click on the element `target`. -/
  | click (target : Nat)
  | mousemove (clientX clientY : ℚ)
  | orientationchange
  /-- The window is resized to `w` by `h`. -/
  | resize (w h : Nat)
  /-- A touch starts on the element `target`; the coordinates are those of
  `e.touches[0]`. -/
  | touchstart (target : Nat) (clientX clientY : ℚ)
  | touchmove (clientX clientY : ℚ)
  /-- A touch ends on the element `target`. -/
  | touchend (target : Nat)
  | cardsIntersect (entries : List (Nat × Bool))
  | skillsIntersect (entries : List (Nat × Bool))
  /-- One millisecond passes. -/
  | tick

/-- Remove the first occurrence of `o` from the pending promises. -/
def settle (o : PlayOrigin) (s : St) : St :=
  { s with pendingPlays := s.pendingPlays.erase o }

/-- The buttons with a listener on the propagation path of an event on `target`,
innermost first. -/
def buttonsOnPath (s : St) (target : Nat) : List Nat :=
  (eventPath s.elems s.elems.length target).filter (fun b => decide (b ∈ s.c.buttons))

/-- Lines 142-146: the `touchstart` listeners of the buttons on the path of a touch
that starts on `target`. -/
def touchedButtons (target : Nat) (s : St) : St :=
  if s.c.isTouchDevice then
    (buttonsOnPath s target).foldl (fun s b => onBtnTouchstart b s)
      { s with defaultPrevented := false }
  else { s with defaultPrevented := false }

/-- Deliver an event: the listeners registered for it run; an event without a
listener changes nothing. -/
def dispatch (ev : Event) (s : St) : Option St :=
  match ev with
  | Event.tick => tick s
  | Event.canplay =>
    if s.c.desktop then onCanplay { s with defaultPrevented := false }
    else pure { s with defaultPrevented := false }
  | Event.error =>
    if s.c.desktop then onError { s with defaultPrevented := false }
    else pure { s with defaultPrevented := false }
  | Event.loadeddata =>
    if s.c.desktop then onLoadeddata { s with defaultPrevented := false }
    else pure { s with defaultPrevented := false }
  | Event.playSettled o ok =>
    if o ∈ s.pendingPlays then onPlaySettled o ok (settle o s) else pure s
  | Event.visibilitychange hidden =>
    if s.c.desktop then onVisibilitychange hidden { s with defaultPrevented := false }
    else pure { s with defaultPrevented := false }
  | Event.click target =>
    pure ((buttonsOnPath s target).foldl (fun s b => onClick b s)
      { s with defaultPrevented := false })
  | Event.touchend target =>
    if s.c.isTouchDevice then
      pure ((buttonsOnPath s target).foldl (fun s b => onBtnTouchend b s)
        { s with defaultPrevented := false })
    else pure { s with defaultPrevented := false }
  | Event.mousemove x y =>
    if s.c.parallax then pure (onMousemove x y { s with defaultPrevented := false })
    else pure { s with defaultPrevented := false }
  | Event.orientationchange => pure (onOrientationchange { s with defaultPrevented := false })
  | Event.resize w h =>
    pure (onResize { s with innerWidth := w, innerHeight := h, defaultPrevented := false })
  | Event.touchstart target x y =>
    if s.c.swipe then pure (onTouchstart x y (touchedButtons target s))
    else pure (touchedButtons target s)
  | Event.touchmove x y =>
    if s.c.swipe then pure (onTouchmove x y { s with defaultPrevented := false })
    else pure { s with defaultPrevented := false }
  | Event.cardsIntersect entries =>
    pure (onCardsIntersect (entries.filter (fun e => decide (e.1 ∈ s.c.cards))) s)
  | Event.skillsIntersect entries =>
    pure (onSkillsIntersect (entries.filter (fun e => decide (e.1 ∈ s.c.skillBars))) s)

/-- Deliver a sequence of events, oldest first. -/
def run (evs : List Event) (s : St) : Option St :=
  evs.foldlM (fun s ev => dispatch ev s) s

/-- Let `n` milliseconds pass with no other event. -/
def advance (n : Nat) (s : St) : Option St :=
  run (List.replicate n Event.tick) s

/-! ## Lemmas on the elementary updates -/

theorem modifyAt_length (f : Elem → Elem) : ∀ (i : Nat) (l : List Elem),
    (modifyAt f i l).length = l.length
  | _, [] => by simp [modifyAt]
  | 0, _ :: _ => rfl
  | i + 1, _ :: es => by simp [modifyAt, modifyAt_length f i es]

theorem modifyAt_getElem?_eq (f : Elem → Elem) : ∀ (i : Nat) (l : List Elem),
    (modifyAt f i l)[i]? = (l[i]?).map f
  | _, [] => by simp [modifyAt]
  | 0, _ :: _ => by simp [modifyAt]
  | i + 1, _ :: es => by simp [modifyAt, modifyAt_getElem?_eq f i es]

theorem modifyAt_getElem?_ne (f : Elem → Elem) : ∀ (i j : Nat) (l : List Elem), i ≠ j →
    (modifyAt f i l)[j]? = l[j]?
  | _, _, [], _ => by simp [modifyAt]
  | 0, 0, _ :: _, h => absurd rfl h
  | 0, j + 1, _ :: _, _ => by simp [modifyAt]
  | i + 1, 0, _ :: _, _ => by simp [modifyAt]
  | i + 1, j + 1, _ :: es, h => by
    have h' : i ≠ j := fun e => h (by rw [e])
    simp [modifyAt, modifyAt_getElem?_ne f i j es h']

/-- An update that keeps the class list of every element keeps the class lists of
the document. -/
theorem modifyAt_classes (f : Elem → Elem) (hf : ∀ e, (f e).classes = e.classes) :
    ∀ (i : Nat) (l : List Elem),
    (modifyAt f i l).map (fun e => e.classes) = l.map (fun e => e.classes)
  | _, [] => by simp [modifyAt]
  | 0, _ :: _ => by simp [modifyAt, hf]
  | i + 1, _ :: es => by simp [modifyAt, modifyAt_classes f hf i es]

theorem matchesClass_eq (els : List Elem) (c : String) (i : Nat) :
    matchesClass els c i =
      match (els.map (fun e => e.classes))[i]? with
      | none => false
      | some cs => decide (c ∈ cs) := by
  unfold matchesClass
  cases h : els[i]? <;> simp [h]

/-- Class selectors only read the class lists. -/
theorem querySelectorClass_congr (c : String) (els els' : List Elem)
    (h : els'.map (fun e => e.classes) = els.map (fun e => e.classes)) :
    querySelectorClass c els' = querySelectorClass c els := by
  have hl : els'.length = els.length := by
    have := congrArg List.length h
    simpa using this
  have hm : matchesClass els' c = matchesClass els c := by
    funext i
    rw [matchesClass_eq, matchesClass_eq, h]
  unfold querySelectorClass
  rw [hl, hm]

theorem querySelectorClass_lt {c : String} {els : List Elem} {i : Nat}
    (h : querySelectorClass c els = some i) : i < els.length := by
  unfold querySelectorClass at h
  have := List.mem_of_find?_eq_some h
  simpa using this

theorem querySelectorVideo_lt {els : List Elem} {i : Nat}
    (h : querySelectorVideo els = some i) : i < els.length := by
  unfold querySelectorVideo at h
  have := List.mem_of_find?_eq_some h
  simpa using this

theorem hasAncestorWithClass_exists (els : List Elem) (c : String) :
    ∀ (fuel i : Nat), hasAncestorWithClass els c fuel i = true →
      ∃ j, j < els.length ∧ matchesClass els c j = true
  | 0, _, h => by simp [hasAncestorWithClass] at h
  | fuel + 1, i, h => by
    unfold hasAncestorWithClass at h
    cases hi : els[i]? with
    | none => simp [hi] at h
    | some e =>
      cases hp : e.parent with
      | none => simp [hi, hp] at h
      | some j =>
        cases hj : els[j]? with
        | none => simp [hi, hp, hj] at h
        | some a =>
          simp only [hi, hp, hj, Bool.or_eq_true] at h
          rcases h with h | h
          · refine ⟨j, ?_, ?_⟩
            · exact (List.getElem?_eq_some_iff.mp hj).1
            · simp [matchesClass, hj] at h ⊢
              exact h
          · exact hasAncestorWithClass_exists els c fuel j h

/-- A match for `.video-background video` implies a match for
`.video-background`: the video has an ancestor of that class. -/
theorem videoContainer_of_video {els : List Elem} {v : Nat}
    (h : querySelectorVideo els = some v) :
    ∃ vc, querySelectorClass "video-background" els = some vc := by
  unfold querySelectorVideo at h
  have hv := List.find?_some h
  unfold matchesVideo at hv
  cases hi : els[v]? with
  | none => simp [hi] at hv
  | some e =>
    simp only [hi, Bool.and_eq_true] at hv
    obtain ⟨j, hj, hm⟩ := hasAncestorWithClass_exists els _ _ _ hv.2
    cases hq : querySelectorClass "video-background" els with
    | some vc => exact ⟨vc, rfl⟩
    | none =>
      unfold querySelectorClass at hq
      rw [List.find?_eq_none] at hq
      exact absurd hm (hq j (List.mem_range.mpr hj))

@[simp] theorem setStyle_c (s : St) (i : Nat) (f : Style → Style) :
    (s.setStyle i f).c = s.c := rfl

@[simp] theorem addClass_c (s : St) (i : Nat) (c : String) : (s.addClass i c).c = s.c := rfl

/-! ## Invariant of the reachable states -/

/-- Timers of the queue that hold the debounced resize body. -/
def pendingResize (s : St) : List Timer :=
  s.timers.filter (fun t => decide (t.action = TimerAction.resize))

/-- Number of times the event loop has invoked the debounced resize body. -/
def resizeRuns (s : St) : Nat :=
  s.fired.countP (fun e => decide (e.2 = TimerAction.resize))

/-- What holds of every state the page reaches: the closure `c0` and the number
`n` of elements are those of the load; callbacks that read the video exist only
when the video does; the only pending resize timer is the one whose handle is in
`resizeTimeout`. -/
structure Inv (c0 : Closure) (n : Nat) (s : St) : Prop where
  c_eq : s.c = c0
  len : s.elems.length = n
  desk : c0.desktop = true → c0.videoBackground ≠ none
  safe : c0.videoBackground = none →
    (∀ t ∈ s.timers, t.action ≠ TimerAction.fallback) ∧ PlayOrigin.loadeddata ∉ s.pendingPlays
  deb : ∀ t ∈ s.timers, t.action = TimerAction.resize → s.resizeTimeout = some t.id

theorem Inv.of_eq {c0 : Closure} {n : Nat} {s s' : St} (h : Inv c0 n s)
    (hc : s'.c = s.c) (hl : s'.elems.length = s.elems.length) (ht : s'.timers = s.timers)
    (hp : s'.pendingPlays = s.pendingPlays) (hr : s'.resizeTimeout = s.resizeTimeout) :
    Inv c0 n s' :=
  ⟨hc.trans h.c_eq, hl.trans h.len, h.desk, by rw [ht, hp]; exact h.safe,
   by rw [ht, hr]; exact h.deb⟩

theorem Inv.setStyle {c0 : Closure} {n : Nat} {s : St} (h : Inv c0 n s) (i : Nat)
    (f : Style → Style) : Inv c0 n (s.setStyle i f) :=
  h.of_eq rfl (modifyAt_length _ _ _) rfl rfl rfl

theorem Inv.addClass {c0 : Closure} {n : Nat} {s : St} (h : Inv c0 n s) (i : Nat)
    (c : String) : Inv c0 n (s.addClass i c) :=
  h.of_eq rfl (modifyAt_length _ _ _) rfl rfl rfl

/-- Scheduling a callback other than the fallback and the resize body keeps the
invariant. -/
theorem Inv.setTimeout {c0 : Closure} {n : Nat} {s : St} (h : Inv c0 n s) (a : TimerAction)
    (d : Nat) (ha : a ≠ TimerAction.fallback) (hr : a ≠ TimerAction.resize) :
    Inv c0 n (s.setTimeout a d).1 := by
  refine ⟨h.c_eq, h.len, h.desk, ?_, ?_⟩
  · intro hv
    refine ⟨?_, (h.safe hv).2⟩
    intro t ht
    simp only [St.setTimeout, List.mem_append, List.mem_singleton] at ht
    rcases ht with ht | ht
    · exact (h.safe hv).1 t ht
    · rw [ht]; exact ha
  · intro t ht hres
    simp only [St.setTimeout, List.mem_append, List.mem_singleton] at ht
    rcases ht with ht | ht
    · exact h.deb t ht hres
    · rw [ht] at hres; exact absurd hres hr

theorem foldl_inv {α σ : Type} (P : σ → Prop) (f : σ → α → σ)
    (h : ∀ s a, P s → P (f s a)) : ∀ (l : List α) (s : σ), P s → P (l.foldl f s)
  | [], _, hs => hs
  | a :: l, s, hs => foldl_inv P f h l (f s a) (h s a hs)

theorem foldlM_inv {α σ : Type} (P : σ → Prop) (f : σ → α → Option σ) :
    ∀ (l : List α), (∀ s a, a ∈ l → P s → ∃ s', f s a = some s' ∧ P s') →
      ∀ s, P s → ∃ s', l.foldlM f s = some s' ∧ P s'
  | [], _, s, hs => ⟨s, rfl, hs⟩
  | a :: l, h, s, hs => by
    obtain ⟨s1, h1, hP1⟩ := h s a (List.mem_cons_self a l) hs
    obtain ⟨s2, h2, hP2⟩ :=
      foldlM_inv P f l (fun s b hb hP => h s b (List.mem_cons_of_mem a hb) hP) s1 hP1
    exact ⟨s2, by simp [List.foldlM, h1, h2], hP2⟩

theorem inv_resetShapes {c0 : Closure} {n : Nat} {s : St} (h : Inv c0 n s) :
    Inv c0 n (resetShapes s) :=
  foldl_inv (Inv c0 n) _ (fun _ _ hs => hs.setStyle _ _) _ _ h

theorem inv_pauseSkillBars {c0 : Closure} {n : Nat} {s : St} (h : Inv c0 n s)
    (bars : List Nat) : Inv c0 n (pauseSkillBars bars s) :=
  foldl_inv (Inv c0 n) _ (fun _ _ hs => hs.setStyle _ _) _ _ h

theorem inv_setTranslate {c0 : Closure} {n : Nat} {s : St} (shape : Nat) (x y : Num)
    (h : Inv c0 n s) : Inv c0 n (setTranslate shape x y s) := by
  unfold setTranslate
  split
  · exact h.setStyle _ _
  · exact h

theorem inv_moveShapes {c0 : Closure} {n : Nat} (mx my : Num) :
    ∀ (l : List Nat) (k : Nat) (s : St), Inv c0 n s → Inv c0 n (moveShapes mx my k l s)
  | [], _, _, h => h
  | _ :: l, k, _, h => inv_moveShapes mx my l (k + 1) _ (inv_setTranslate _ _ _ h)

theorem inv_onCardsIntersect {c0 : Closure} {n : Nat} {s : St} (h : Inv c0 n s)
    (entries : List (Nat × Bool)) : Inv c0 n (onCardsIntersect entries s) := by
  refine foldl_inv (Inv c0 n) _ (fun s e hs => ?_) _ _ h
  by_cases he : e.2 = true
  · simp only [he, if_true]; exact hs.setStyle _ _
  · simp only [he]; exact hs

theorem inv_onSkillsIntersect {c0 : Closure} {n : Nat} {s : St} (h : Inv c0 n s)
    (entries : List (Nat × Bool)) : Inv c0 n (onSkillsIntersect entries s) := by
  refine foldl_inv (Inv c0 n) _ (fun s e hs => ?_) _ _ h
  by_cases he : e.2 = true
  · simp only [he, if_true]; exact hs.setStyle _ _
  · simp only [he]; exact hs

theorem inv_onOrientTimer {c0 : Closure} {n : Nat} {s : St} (h : Inv c0 n s) :
    Inv c0 n (onOrientTimer s) := by
  unfold onOrientTimer
  simp only
  split
  · split
    · exact (inv_resetShapes h).setStyle _ _
    · exact inv_resetShapes h
  · exact inv_resetShapes h

theorem inv_onResizeTimer {c0 : Closure} {n : Nat} {s : St} (h : Inv c0 n s) :
    Inv c0 n (onResizeTimer s) := by
  unfold onResizeTimer
  simp only
  split
  · split
    · exact (inv_resetShapes h).setStyle _ _
    · exact inv_resetShapes h
  · split
    · split
      · exact h.setStyle _ _
      · exact h
    · exact h

theorem inv_onResize {c0 : Closure} {n : Nat} {s : St} (h : Inv c0 n s) :
    Inv c0 n (onResize s) := by
  refine ⟨h.c_eq, h.len, h.desk, ?_, ?_⟩
  · intro hv
    refine ⟨?_, (h.safe hv).2⟩
    intro t ht
    simp [onResize, St.setTimeout, St.clearTimeout] at ht
    rcases ht with ht | ht
    · exact (h.safe hv).1 t ht.1
    · rw [ht]; simp
  · intro t ht hres
    simp [onResize, St.setTimeout, St.clearTimeout] at ht ⊢
    rcases ht with ht | ht
    · exact absurd (h.deb t ht.1 hres).symm ht.2
    · rw [ht]

/-! ## Callbacks that only write to elements -/

/-- The state `s'` differs from `s` at most in the elements, and has as many. -/
def ElemsOnly (s s' : St) : Prop :=
  s' = { s with elems := s'.elems } ∧ s'.elems.length = s.elems.length

theorem ElemsOnly.same (s : St) : ElemsOnly s s := ⟨rfl, rfl⟩

theorem ElemsOnly.andThen {s s' s'' : St} (h : ElemsOnly s s') (h' : ElemsOnly s' s'') :
    ElemsOnly s s'' := by
  refine ⟨?_, h'.2.trans h.2⟩
  have e1 := h.1
  have e2 := h'.1
  rw [e2, e1]

theorem ElemsOnly.ofSetStyle (s : St) (i : Nat) (f : Style → Style) :
    ElemsOnly s (s.setStyle i f) := ⟨rfl, modifyAt_length _ _ _⟩

theorem ElemsOnly.ofAddClass (s : St) (i : Nat) (c : String) :
    ElemsOnly s (s.addClass i c) := ⟨rfl, modifyAt_length _ _ _⟩

theorem ElemsOnly.c {s s' : St} (h : ElemsOnly s s') : s'.c = s.c := by rw [h.1]

theorem ElemsOnly.timers {s s' : St} (h : ElemsOnly s s') : s'.timers = s.timers := by rw [h.1]

theorem ElemsOnly.fired {s s' : St} (h : ElemsOnly s s') : s'.fired = s.fired := by rw [h.1]

theorem ElemsOnly.now {s s' : St} (h : ElemsOnly s s') : s'.now = s.now := by rw [h.1]

theorem ElemsOnly.innerWidth {s s' : St} (h : ElemsOnly s s') :
    s'.innerWidth = s.innerWidth := by rw [h.1]

theorem ElemsOnly.pendingPlays {s s' : St} (h : ElemsOnly s s') :
    s'.pendingPlays = s.pendingPlays := by rw [h.1]

theorem ElemsOnly.resizeTimeout {s s' : St} (h : ElemsOnly s s') :
    s'.resizeTimeout = s.resizeTimeout := by rw [h.1]

theorem ElemsOnly.inv {c0 : Closure} {n : Nat} {s s' : St} (h : ElemsOnly s s')
    (hi : Inv c0 n s) : Inv c0 n s' :=
  hi.of_eq h.c h.2 h.timers h.pendingPlays h.resizeTimeout

theorem elemsOnly_foldl {α : Type} (f : St → α → St) (hf : ∀ s a, ElemsOnly s (f s a)) :
    ∀ (l : List α) (s : St), ElemsOnly s (l.foldl f s)
  | [], s => ElemsOnly.same s
  | a :: l, s => (hf s a).andThen (elemsOnly_foldl f hf l (f s a))

theorem elemsOnly_resetShapes (s : St) : ElemsOnly s (resetShapes s) :=
  elemsOnly_foldl _ (fun s _ => ElemsOnly.ofSetStyle s _ _) _ s

theorem elemsOnly_setTranslate (shape : Nat) (x y : Num) (s : St) :
    ElemsOnly s (setTranslate shape x y s) := by
  unfold setTranslate
  split
  · exact ElemsOnly.ofSetStyle s _ _
  · exact ElemsOnly.same s

theorem elemsOnly_moveShapes (mx my : Num) :
    ∀ (l : List Nat) (k : Nat) (s : St), ElemsOnly s (moveShapes mx my k l s)
  | [], _, s => ElemsOnly.same s
  | _ :: l, k, s =>
    (elemsOnly_setTranslate _ _ _ s).andThen (elemsOnly_moveShapes mx my l (k + 1) _)

theorem elemsOnly_setAnimatedOpacity (value : String) (s : St) :
    ElemsOnly s (setAnimatedOpacity value s) := by
  unfold setAnimatedOpacity
  split
  · exact ElemsOnly.ofSetStyle s _ _
  · exact ElemsOnly.same s

theorem elemsOnly_onResizeTimer (s : St) : ElemsOnly s (onResizeTimer s) := by
  unfold onResizeTimer
  simp only
  split
  · split
    · exact (elemsOnly_resetShapes s).andThen (ElemsOnly.ofSetStyle _ _ _)
    · exact elemsOnly_resetShapes s
  · split
    · split
      · exact ElemsOnly.ofSetStyle s _ _
      · exact ElemsOnly.same s
    · exact ElemsOnly.same s

theorem elemsOnly_onOrientTimer (s : St) : ElemsOnly s (onOrientTimer s) := by
  unfold onOrientTimer
  simp only
  split
  · split
    · exact (elemsOnly_resetShapes s).andThen (ElemsOnly.ofSetStyle _ _ _)
    · exact elemsOnly_resetShapes s
  · exact elemsOnly_resetShapes s

/-- The fallback of lines 47-50 runs whenever the video variable is not null. -/
theorem fallbackToAnimated_eq {s : St} {v : Nat} (hv : s.c.videoBackground = some v) :
    fallbackToAnimated s =
      some (setAnimatedOpacity "1" (s.setStyle v (fun st => { st with display := "none" }))) := by
  simp only [fallbackToAnimated, hv, Option.bind_eq_bind, Option.some_bind, Option.pure_def]

theorem onCanplay_eq {s : St} {v : Nat} (hv : s.c.videoBackground = some v) :
    onCanplay s =
      some (setAnimatedOpacity "0"
        ((s.addClass v "loaded").setStyle v (fun st => { st with opacity := "1" }))) := by
  simp only [onCanplay, hv, Option.bind_eq_bind, Option.some_bind, Option.pure_def]

theorem fallbackToAnimated_elemsOnly {s : St} {v : Nat} (hv : s.c.videoBackground = some v) :
    ∃ s', fallbackToAnimated s = some s' ∧ ElemsOnly s s' :=
  ⟨_, fallbackToAnimated_eq hv,
    (ElemsOnly.ofSetStyle s _ _).andThen (elemsOnly_setAnimatedOpacity _ _)⟩

theorem onCanplay_elemsOnly {s : St} {v : Nat} (hv : s.c.videoBackground = some v) :
    ∃ s', onCanplay s = some s' ∧ ElemsOnly s s' :=
  ⟨_, onCanplay_eq hv,
    ((ElemsOnly.ofAddClass s _ _).andThen (ElemsOnly.ofSetStyle _ _ _)).andThen
      (elemsOnly_setAnimatedOpacity _ _)⟩

theorem onFallbackTimer_eq {s : St} {v : Nat} (hv : s.c.videoBackground = some v) :
    onFallbackTimer s = if s.hasClass v "loaded" = true then some s else fallbackToAnimated s := by
  unfold onFallbackTimer
  simp only [hv, Option.bind_eq_bind, Option.some_bind]
  cases s.hasClass v "loaded" <;> rfl

theorem onFallbackTimer_elemsOnly {s : St} {v : Nat} (hv : s.c.videoBackground = some v) :
    ∃ s', onFallbackTimer s = some s' ∧ ElemsOnly s s' := by
  unfold onFallbackTimer
  simp only [hv, Option.bind_eq_bind, Option.some_bind]
  split
  · exact fallbackToAnimated_elemsOnly hv
  · exact ⟨s, rfl, ElemsOnly.same s⟩

/-! ## The event loop keeps the invariant -/

/-- A callback that leaves the trace, the pending resize timers, the clock and the
viewport width alone. -/
def Quiet (s s' : St) : Prop :=
  s'.fired = s.fired ∧ pendingResize s' = pendingResize s ∧ s'.now = s.now ∧
    s'.innerWidth = s.innerWidth ∧ s'.startX = s.startX ∧ s'.startY = s.startY

theorem Quiet.unchanged (s : St) : Quiet s s := ⟨rfl, rfl, rfl, rfl, rfl, rfl⟩

theorem Quiet.followedBy {s s' s'' : St} (h : Quiet s s') (h' : Quiet s' s'') : Quiet s s'' :=
  ⟨h'.1.trans h.1, h'.2.1.trans h.2.1, h'.2.2.1.trans h.2.2.1, h'.2.2.2.1.trans h.2.2.2.1,
   h'.2.2.2.2.1.trans h.2.2.2.2.1, h'.2.2.2.2.2.trans h.2.2.2.2.2⟩

theorem ElemsOnly.startX {s s' : St} (h : ElemsOnly s s') : s'.startX = s.startX := by rw [h.1]

theorem ElemsOnly.startY {s s' : St} (h : ElemsOnly s s') : s'.startY = s.startY := by rw [h.1]

theorem ElemsOnly.quiet {s s' : St} (h : ElemsOnly s s') : Quiet s s' :=
  ⟨h.fired, by unfold pendingResize; rw [h.timers], h.now, h.innerWidth, h.startX, h.startY⟩

theorem quiet_setTimeout (s : St) (a : TimerAction) (d : Nat) (ha : a ≠ TimerAction.resize) :
    Quiet s (s.setTimeout a d).1 := by
  refine ⟨rfl, ?_, rfl, rfl, rfl, rfl⟩
  simp [pendingResize, St.setTimeout, List.filter_append, ha]

theorem resizeRuns_log (s : St) (a : TimerAction) :
    resizeRuns { s with fired := s.fired ++ [(s.now, a)] } =
      resizeRuns s + (if a = TimerAction.resize then 1 else 0) := by
  by_cases ha : a = TimerAction.resize <;> simp [resizeRuns, List.countP_append, ha]

/-- Running one due timer: the callback returns, the invariant holds after it, the
trace grows by that callback and no resize timer is added or removed. -/
theorem fire_spec {c0 : Closure} {n : Nat} {s : St} (t : Timer) (h : Inv c0 n s)
    (ht : t.action = TimerAction.fallback → c0.videoBackground ≠ none) :
    ∃ s', fire s t = some s' ∧ Inv c0 n s' ∧
      resizeRuns s' = resizeRuns s + (if t.action = TimerAction.resize then 1 else 0) ∧
      pendingResize s' = pendingResize s ∧ s'.now = s.now ∧ s'.innerWidth = s.innerWidth ∧
      s'.startX = s.startX ∧ s'.startY = s.startY := by
  have h1 : Inv c0 n { s with fired := s.fired ++ [(s.now, t.action)] } :=
    h.of_eq rfl rfl rfl rfl rfl
  have key : ∀ s', Inv c0 n s' → Quiet { s with fired := s.fired ++ [(s.now, t.action)] } s' →
      Inv c0 n s' ∧
      resizeRuns s' = resizeRuns s + (if t.action = TimerAction.resize then 1 else 0) ∧
      pendingResize s' = pendingResize s ∧ s'.now = s.now ∧ s'.innerWidth = s.innerWidth ∧
      s'.startX = s.startX ∧ s'.startY = s.startY := by
    intro s' hi hq
    refine ⟨hi, ?_, hq.2.1, hq.2.2.1, hq.2.2.2.1, hq.2.2.2.2.1, hq.2.2.2.2.2⟩
    rw [← resizeRuns_log s t.action]
    unfold resizeRuns
    rw [hq.1]
  cases ha : t.action with
  | fallback =>
    have hv := ht ha
    rw [← h.c_eq] at hv
    obtain ⟨v, hv'⟩ := Option.ne_none_iff_exists'.mp hv
    obtain ⟨s', hs', he⟩ :=
      onFallbackTimer_elemsOnly (s := { s with fired := s.fired ++ [(s.now, t.action)] }) hv'
    rw [ha] at hs' he h1 key
    exact ⟨s', by simp only [fire, ha]; exact hs', key s' (he.inv h1) he.quiet⟩
  | btnGrow b =>
    rw [ha] at h1 key
    refine ⟨_, by simp only [fire, ha]; rfl, key _ ?_ ?_⟩
    · exact (h1.setStyle _ _).setTimeout _ _ (by simp) (by simp)
    · exact (ElemsOnly.ofSetStyle _ _ _).quiet.followedBy (quiet_setTimeout _ _ _ (by simp))
  | btnReset b =>
    rw [ha] at h1 key
    exact ⟨_, by simp only [fire, ha]; rfl, key _ (h1.setStyle _ _)
      (ElemsOnly.ofSetStyle _ _ _).quiet⟩
  | orient =>
    rw [ha] at h1 key
    exact ⟨_, by simp only [fire, ha]; rfl, key _ (inv_onOrientTimer h1)
      (elemsOnly_onOrientTimer _).quiet⟩
  | resize =>
    rw [ha] at h1 key
    exact ⟨_, by simp only [fire, ha]; rfl, key _ (inv_onResizeTimer h1)
      (elemsOnly_onResizeTimer _).quiet⟩

theorem fire_fold {c0 : Closure} {n : Nat} :
    ∀ (l : List Timer) (s : St), Inv c0 n s →
      (∀ t ∈ l, t.action = TimerAction.fallback → c0.videoBackground ≠ none) →
      ∃ s', l.foldlM fire s = some s' ∧ Inv c0 n s' ∧
        resizeRuns s' = resizeRuns s + l.countP (fun t => decide (t.action = TimerAction.resize)) ∧
        pendingResize s' = pendingResize s ∧ s'.now = s.now ∧ s'.innerWidth = s.innerWidth ∧
        s'.startX = s.startX ∧ s'.startY = s.startY
  | [], s, h, _ => ⟨s, rfl, h, by simp, rfl, rfl, rfl, rfl, rfl⟩
  | t :: l, s, h, hl => by
    obtain ⟨s1, e1, i1, r1, p1, n1, w1, x1, y1⟩ := fire_spec t h (hl t (List.mem_cons_self t l))
    obtain ⟨s2, e2, i2, r2, p2, n2, w2, x2, y2⟩ :=
      fire_fold l s1 i1 (fun u hu => hl u (List.mem_cons_of_mem t hu))
    refine ⟨s2, by simp [List.foldlM, e1, e2], i2, ?_, p2.trans p1, n2.trans n1, w2.trans w1,
      x2.trans x1, y2.trans y1⟩
    rw [r2, r1, List.countP_cons]
    by_cases ha : t.action = TimerAction.resize
    · simp [ha]; omega
    · simp [ha]

/-- One millisecond: the callbacks due all return, and the debounced resize body
runs once for every resize timer that is due. -/
theorem tick_spec {c0 : Closure} {n : Nat} {s : St} (h : Inv c0 n s) :
    ∃ s', tick s = some s' ∧ Inv c0 n s' ∧ s'.now = s.now + 1 ∧
      s'.innerWidth = s.innerWidth ∧
      resizeRuns s' = resizeRuns s +
        ((pendingResize s).filter (fun t => decide (t.due ≤ s.now + 1))).length ∧
      pendingResize s' = (pendingResize s).filter (fun t => !decide (t.due ≤ s.now + 1)) ∧
      s'.startX = s.startX ∧ s'.startY = s.startY := by
  have h0 : Inv c0 n { s with now := s.now + 1,
                               timers := s.timers.filter (fun t => not (decide (t.due ≤ s.now + 1))) } := by
    refine ⟨h.c_eq, h.len, h.desk, ?_, ?_⟩
    · intro hv
      exact ⟨fun t ht => (h.safe hv).1 t (List.mem_filter.mp ht).1, (h.safe hv).2⟩
    · intro t ht hr
      exact h.deb t (List.mem_filter.mp ht).1 hr
  have hdue : ∀ t ∈ s.timers.filter (fun t => decide (t.due ≤ s.now + 1)),
      t.action = TimerAction.fallback → c0.videoBackground ≠ none := by
    intro t ht ha hv
    exact (h.safe hv).1 t (List.mem_filter.mp ht).1 ha
  obtain ⟨s', e, i, r, p, n', w, x, y⟩ := fire_fold _ _ h0 hdue
  refine ⟨s', e, i, n', w, ?_, ?_, x, y⟩
  · rw [r]
    simp only [resizeRuns, pendingResize, List.countP_eq_length_filter, List.filter_filter]
    congr 3
    funext t
    exact Bool.and_comm _ _
  · rw [p]
    simp only [pendingResize, List.filter_filter]
    congr 1
    funext t
    exact Bool.and_comm _ _

theorem inv_onClick {c0 : Closure} {n : Nat} {s : St} (b : Nat) (h : Inv c0 n s) :
    Inv c0 n (onClick b s) := by
  have h1 : Inv c0 n { s with defaultPrevented := true } := h.of_eq rfl rfl rfl rfl rfl
  exact (h1.setStyle _ _).setTimeout _ _ (by simp) (by simp)

theorem inv_onTouchstart {c0 : Closure} {n : Nat} {s : St} (x y : ℚ) (h : Inv c0 n s) :
    Inv c0 n (onTouchstart x y s) :=
  h.of_eq rfl rfl rfl rfl rfl

theorem inv_onTouchmove {c0 : Closure} {n : Nat} {s : St} (x y : ℚ) (h : Inv c0 n s) :
    Inv c0 n (onTouchmove x y s) := by
  unfold onTouchmove
  split
  · exact h.of_eq rfl rfl rfl rfl rfl
  · exact h

/-- Every event is handled without dereferencing `null`, and the invariant holds
afterwards. -/
theorem dispatch_inv {c0 : Closure} {n : Nat} {s : St} (ev : Event) (h : Inv c0 n s) :
    ∃ s', dispatch ev s = some s' ∧ Inv c0 n s' := by
  have hp : ∀ b, Inv c0 n { s with defaultPrevented := b } :=
    fun b => h.of_eq rfl rfl rfl rfl rfl
  have hvideo : s.c.desktop = true → ∃ v, s.c.videoBackground = some v := by
    intro hd
    rw [h.c_eq] at hd ⊢
    exact Option.ne_none_iff_exists'.mp (h.desk hd)
  cases ev with
  | tick =>
    obtain ⟨s', e, i, _⟩ := tick_spec h
    exact ⟨s', e, i⟩
  | canplay =>
    by_cases hd : s.c.desktop = true
    · obtain ⟨v, hv⟩ := hvideo hd
      obtain ⟨s', e, he⟩ := onCanplay_elemsOnly (s := { s with defaultPrevented := false }) hv
      exact ⟨s', by simp only [dispatch, hd, if_true]; exact e, he.inv (hp false)⟩
    · exact ⟨_, by simp only [dispatch, hd]; rfl, hp false⟩
  | error =>
    by_cases hd : s.c.desktop = true
    · obtain ⟨v, hv⟩ := hvideo hd
      obtain ⟨s', e, he⟩ :=
        fallbackToAnimated_elemsOnly (s := { s with defaultPrevented := false }) hv
      exact ⟨s', by simp only [dispatch, hd, if_true, onError]; exact e, he.inv (hp false)⟩
    · exact ⟨_, by simp only [dispatch, hd]; rfl, hp false⟩
  | loadeddata =>
    by_cases hd : s.c.desktop = true
    · obtain ⟨v, hv⟩ := hvideo hd
      refine ⟨_, by simp only [dispatch, hd, if_true, onLoadeddata, hv]; rfl, ?_⟩
      refine ⟨h.c_eq, h.len, h.desk, fun hn => ?_, h.deb⟩
      rw [← h.c_eq, hv] at hn
      exact absurd hn (by simp)
    · exact ⟨_, by simp only [dispatch, hd]; rfl, hp false⟩
  | playSettled o ok =>
    by_cases hm : o ∈ s.pendingPlays
    · have hs : Inv c0 n (settle o s) := by
        refine ⟨h.c_eq, h.len, h.desk, fun hn => ⟨(h.safe hn).1, fun hc => ?_⟩, h.deb⟩
        exact (h.safe hn).2 (List.mem_of_mem_erase hc)
      cases ok with
      | true =>
        refine ⟨_, by simp only [dispatch, hm, if_true, onPlaySettled]; rfl, ?_⟩
        exact hs.of_eq rfl rfl rfl rfl rfl
      | false =>
        cases o with
        | loadeddata =>
          have hne : s.c.videoBackground ≠ none := by
            intro hn
            rw [h.c_eq] at hn
            exact (h.safe hn).2 hm
          obtain ⟨v, hv⟩ := Option.ne_none_iff_exists'.mp hne
          obtain ⟨s', e, he⟩ :=
            fallbackToAnimated_elemsOnly (s := settle PlayOrigin.loadeddata s) hv
          exact ⟨s', by simp only [dispatch, hm, if_true, onPlaySettled]; exact e, he.inv hs⟩
        | resume => exact ⟨_, by simp only [dispatch, hm, if_true, onPlaySettled]; rfl, hs⟩
        | immediate => exact ⟨_, by simp only [dispatch, hm, if_true, onPlaySettled]; rfl, hs⟩
    · exact ⟨s, by simp only [dispatch, hm]; rfl, h⟩
  | visibilitychange hidden =>
    by_cases hd : s.c.desktop = true
    · obtain ⟨v, hv⟩ := hvideo hd
      cases hidden with
      | true =>
        refine ⟨_, by simp only [dispatch, hd, if_true, onVisibilitychange, hv]; rfl, ?_⟩
        exact h.of_eq rfl rfl rfl rfl rfl
      | false =>
        refine ⟨_, by simp only [dispatch, hd, if_true, onVisibilitychange, hv]; rfl, ?_⟩
        refine ⟨h.c_eq, h.len, h.desk, fun hn => ?_, h.deb⟩
        rw [← h.c_eq, hv] at hn
        exact absurd hn (by simp)
    · exact ⟨_, by simp only [dispatch, hd]; rfl, hp false⟩
  | click target =>
    exact ⟨_, rfl, foldl_inv (Inv c0 n) _ (fun _ b hs => inv_onClick b hs) _ _ (hp false)⟩
  | touchend target =>
    by_cases hb : s.c.isTouchDevice = true
    · exact ⟨_, by simp only [dispatch, hb, if_true]; rfl,
        foldl_inv (Inv c0 n) (fun s b => onBtnTouchend b s) (fun _ _ hs => hs.setStyle _ _)
          _ _ (hp false)⟩
    · exact ⟨_, by simp only [dispatch, hb]; rfl, hp false⟩
  | mousemove x y =>
    by_cases hb : s.c.parallax = true
    · exact ⟨_, by simp only [dispatch, hb, if_true]; rfl, inv_moveShapes _ _ _ _ _ (hp false)⟩
    · exact ⟨_, by simp only [dispatch, hb]; rfl, hp false⟩
  | orientationchange =>
    exact ⟨_, rfl, (hp false).setTimeout _ _ (by simp) (by simp)⟩
  | resize w h' =>
    exact ⟨_, rfl, inv_onResize (h.of_eq rfl rfl rfl rfl rfl)⟩
  | touchstart target x y =>
    have h1 : Inv c0 n (touchedButtons target s) := by
      unfold touchedButtons
      split
      · exact foldl_inv (Inv c0 n) (fun s b => onBtnTouchstart b s)
          (fun _ _ hs => hs.setStyle _ _) _ _ (hp false)
      · exact hp false
    by_cases hb : s.c.swipe = true
    · exact ⟨_, by simp only [dispatch, hb, if_true]; rfl, inv_onTouchstart x y h1⟩
    · exact ⟨_, by simp only [dispatch, hb]; rfl, h1⟩
  | touchmove x y =>
    by_cases hb : s.c.swipe = true
    · exact ⟨_, by simp only [dispatch, hb, if_true]; rfl, inv_onTouchmove x y (hp false)⟩
    · exact ⟨_, by simp only [dispatch, hb]; rfl, hp false⟩
  | cardsIntersect entries => exact ⟨_, rfl, inv_onCardsIntersect h _⟩
  | skillsIntersect entries => exact ⟨_, rfl, inv_onSkillsIntersect h _⟩

theorem run_inv {c0 : Closure} {n : Nat} (evs : List Event) (s : St) (h : Inv c0 n s) :
    ∃ s', run evs s = some s' ∧ Inv c0 n s' :=
  foldlM_inv (Inv c0 n) (fun s ev => dispatch ev s) evs (fun _ ev _ hs => dispatch_inv ev hs) s h

theorem elemsOnly_onCardsIntersect (entries : List (Nat × Bool)) (s : St) :
    ElemsOnly s (onCardsIntersect entries s) := by
  refine elemsOnly_foldl _ (fun s e => ?_) _ s
  by_cases he : e.2 = true
  · simp only [he, if_true]; exact ElemsOnly.ofSetStyle s _ _
  · simp only [he]; exact ElemsOnly.same s

theorem elemsOnly_onSkillsIntersect (entries : List (Nat × Bool)) (s : St) :
    ElemsOnly s (onSkillsIntersect entries s) := by
  refine elemsOnly_foldl _ (fun s e => ?_) _ s
  by_cases he : e.2 = true
  · simp only [he, if_true]; exact ElemsOnly.ofSetStyle s _ _
  · simp only [he]; exact ElemsOnly.same s

theorem onTouchmove_start (x y : ℚ) (s : St) :
    (onTouchmove x y s).startX = s.startX ∧ (onTouchmove x y s).startY = s.startY := by
  unfold onTouchmove
  split <;> exact ⟨rfl, rfl⟩

/-- Only the document `touchstart` listener assigns `startX` and `startY`. -/
theorem dispatch_start {c0 : Closure} {n : Nat} {s : St} (ev : Event) (h : Inv c0 n s)
    (hne : ∀ t x y, ev ≠ Event.touchstart t x y) :
    ∃ s', dispatch ev s = some s' ∧ Inv c0 n s' ∧ s'.startX = s.startX ∧
      s'.startY = s.startY := by
  obtain ⟨s', hd, hi⟩ := dispatch_inv ev h
  refine ⟨s', hd, hi, ?_⟩
  have hvideo : s.c.desktop = true → ∃ v, s.c.videoBackground = some v := by
    intro hd
    rw [h.c_eq] at hd ⊢
    exact Option.ne_none_iff_exists'.mp (h.desk hd)
  have fin : ∀ s'', dispatch ev s = some s'' → s''.startX = s.startX ∧ s''.startY = s.startY →
      s'.startX = s.startX ∧ s'.startY = s.startY := by
    intro s'' h'' hst
    rw [hd] at h''
    rw [Option.some.inj h'']
    exact hst
  cases ev with
  | tick =>
    obtain ⟨s'', e, _, _, _, _, _, x, y⟩ := tick_spec h
    exact fin s'' e ⟨x, y⟩
  | canplay =>
    by_cases hdk : s.c.desktop = true
    · obtain ⟨v, hv⟩ := hvideo hdk
      obtain ⟨s'', e, he⟩ := onCanplay_elemsOnly (s := { s with defaultPrevented := false }) hv
      exact fin s'' (by simp only [dispatch, hdk, if_true]; exact e) ⟨he.startX, he.startY⟩
    · exact fin { s with defaultPrevented := false } (by simp only [dispatch, hdk]; rfl)
        ⟨rfl, rfl⟩
  | error =>
    by_cases hdk : s.c.desktop = true
    · obtain ⟨v, hv⟩ := hvideo hdk
      obtain ⟨s'', e, he⟩ :=
        fallbackToAnimated_elemsOnly (s := { s with defaultPrevented := false }) hv
      exact fin s'' (by simp only [dispatch, hdk, if_true, onError]; exact e)
        ⟨he.startX, he.startY⟩
    · exact fin { s with defaultPrevented := false } (by simp only [dispatch, hdk]; rfl)
        ⟨rfl, rfl⟩
  | loadeddata =>
    by_cases hdk : s.c.desktop = true
    · obtain ⟨v, hv⟩ := hvideo hdk
      exact fin { s with defaultPrevented := false,
                         pendingPlays := s.pendingPlays ++ [PlayOrigin.loadeddata] }
        (by simp only [dispatch, hdk, if_true, onLoadeddata, hv]; rfl) ⟨rfl, rfl⟩
    · exact fin { s with defaultPrevented := false } (by simp only [dispatch, hdk]; rfl)
        ⟨rfl, rfl⟩
  | playSettled o ok =>
    by_cases hm : o ∈ s.pendingPlays
    · cases ok with
      | true =>
        exact fin { settle o s with videoPaused := false }
          (by simp only [dispatch, hm, if_true, onPlaySettled]; rfl) ⟨rfl, rfl⟩
      | false =>
        cases o with
        | loadeddata =>
          have hne' : s.c.videoBackground ≠ none := by
            intro hn
            rw [h.c_eq] at hn
            exact (h.safe hn).2 hm
          obtain ⟨v, hv⟩ := Option.ne_none_iff_exists'.mp hne'
          obtain ⟨s'', e, he⟩ :=
            fallbackToAnimated_elemsOnly (s := settle PlayOrigin.loadeddata s) hv
          exact fin s'' (by simp only [dispatch, hm, if_true, onPlaySettled]; exact e)
            ⟨he.startX, he.startY⟩
        | resume =>
          exact fin (settle PlayOrigin.resume s)
            (by simp only [dispatch, hm, if_true, onPlaySettled]; rfl) ⟨rfl, rfl⟩
        | immediate =>
          exact fin (settle PlayOrigin.immediate s)
            (by simp only [dispatch, hm, if_true, onPlaySettled]; rfl) ⟨rfl, rfl⟩
    · exact fin s (by simp only [dispatch, hm]; rfl) ⟨rfl, rfl⟩
  | visibilitychange hidden =>
    by_cases hdk : s.c.desktop = true
    · obtain ⟨v, hv⟩ := hvideo hdk
      cases hidden with
      | true =>
        exact fin { s with defaultPrevented := false, videoPaused := true }
          (by simp only [dispatch, hdk, if_true, onVisibilitychange, hv]; rfl) ⟨rfl, rfl⟩
      | false =>
        exact fin { s with defaultPrevented := false,
                           pendingPlays := s.pendingPlays ++ [PlayOrigin.resume] }
          (by simp only [dispatch, hdk, if_true, onVisibilitychange, hv]; rfl) ⟨rfl, rfl⟩
    · exact fin { s with defaultPrevented := false } (by simp only [dispatch, hdk]; rfl)
        ⟨rfl, rfl⟩
  | click target =>
    exact fin _ rfl
      (foldl_inv (fun t : St => t.startX = s.startX ∧ t.startY = s.startY)
        (fun s b => onClick b s) (fun _ _ ht => ht) (buttonsOnPath s target)
        { s with defaultPrevented := false } ⟨rfl, rfl⟩)
  | touchend target =>
    by_cases hb : s.c.isTouchDevice = true
    · exact fin _ (by simp only [dispatch, hb, if_true]; rfl)
        (foldl_inv (fun t : St => t.startX = s.startX ∧ t.startY = s.startY)
          (fun s b => onBtnTouchend b s) (fun _ _ ht => ht) (buttonsOnPath s target)
          { s with defaultPrevented := false } ⟨rfl, rfl⟩)
    · exact fin { s with defaultPrevented := false } (by simp only [dispatch, hb]; rfl)
        ⟨rfl, rfl⟩
  | mousemove x y =>
    by_cases hb : s.c.parallax = true
    · exact fin (onMousemove x y { s with defaultPrevented := false })
        (by simp only [dispatch, hb, if_true]; rfl)
        ⟨(elemsOnly_moveShapes _ _ _ _ _).startX, (elemsOnly_moveShapes _ _ _ _ _).startY⟩
    · exact fin { s with defaultPrevented := false } (by simp only [dispatch, hb]; rfl)
        ⟨rfl, rfl⟩
  | orientationchange =>
    exact fin (onOrientationchange { s with defaultPrevented := false }) rfl ⟨rfl, rfl⟩
  | resize w h' =>
    exact fin (onResize { s with innerWidth := w, innerHeight := h', defaultPrevented := false })
      rfl ⟨rfl, rfl⟩
  | touchstart target x y => exact absurd rfl (hne target x y)
  | touchmove x y =>
    by_cases hb : s.c.swipe = true
    · exact fin (onTouchmove x y { s with defaultPrevented := false })
        (by simp only [dispatch, hb, if_true]; rfl) (onTouchmove_start x y _)
    · exact fin { s with defaultPrevented := false } (by simp only [dispatch, hb]; rfl)
        ⟨rfl, rfl⟩
  | cardsIntersect entries =>
    exact fin _ rfl ⟨(elemsOnly_onCardsIntersect _ s).startX, (elemsOnly_onCardsIntersect _ s).startY⟩
  | skillsIntersect entries =>
    exact fin _ rfl
      ⟨(elemsOnly_onSkillsIntersect _ s).startX, (elemsOnly_onSkillsIntersect _ s).startY⟩

/-- A sequence of events without a document `touchstart` keeps `startX`, `startY`. -/
theorem run_start {c0 : Closure} {n : Nat} (evs : List Event) (s : St) (h : Inv c0 n s)
    (hne : ∀ ev ∈ evs, ∀ t x y, ev ≠ Event.touchstart t x y) :
    ∃ s', run evs s = some s' ∧ Inv c0 n s' ∧ s'.startX = s.startX ∧ s'.startY = s.startY := by
  obtain ⟨s', hr, hi, hx, hy⟩ :=
    foldlM_inv (fun t => Inv c0 n t ∧ t.startX = s.startX ∧ t.startY = s.startY)
      (fun s ev => dispatch ev s) evs
      (fun t ev hev ht => by
        obtain ⟨t', e, i, x, y⟩ := dispatch_start ev ht.1 (hne ev hev)
        exact ⟨t', e, i, x.trans ht.2.1, y.trans ht.2.2⟩) s ⟨h, rfl, rfl⟩
  exact ⟨s', hr, hi, hx, hy⟩

/-! ## The load handler -/

theorem inv_appendSheet {c0 : Closure} {n : Nat} {s : St} (sheet : StyleSheet)
    (h : Inv c0 n s) : Inv c0 n (s.appendSheet sheet) :=
  h.of_eq rfl rfl rfl rfl rfl

theorem inv_loadRest {c0 : Closure} {n : Nat} {s : St} (p : Page) (h : Inv c0 n s) :
    Inv c0 n (loadRest p s) := by
  unfold loadRest
  simp only
  split
  · split
    · exact inv_appendSheet _ (inv_pauseSkillBars (inv_appendSheet _ h) _)
    · exact inv_appendSheet _ (inv_pauseSkillBars h _)
  · split
    · exact inv_pauseSkillBars (inv_appendSheet _ h) _
    · exact inv_pauseSkillBars h _

theorem inv_initialSt (p : Page) : Inv (closureOf p) p.elems.length (initialSt p) := by
  refine ⟨rfl, rfl, ?_, ?_, ?_⟩
  · intro hd hn
    have hq : querySelectorVideo p.elems = none := hn
    simp [closureOf, hq] at hd
  · intro _
    simp [initialSt]
  · intro t ht
    simp [initialSt] at ht

/-- The desktop branch, lines 18-100. -/
theorem loadVideo_desktop {p : Page} {s : St} {v : Nat} (hv : s.c.videoBackground = some v)
    (hw : 768 < p.innerWidth) :
    loadVideo p s = some
      (if 3 ≤ p.readyState then
        { (s.setTimeout TimerAction.fallback 10000).1 with
          pendingPlays := (s.setTimeout TimerAction.fallback 10000).1.pendingPlays ++
            [PlayOrigin.immediate] }
      else (s.setTimeout TimerAction.fallback 10000).1) := by
  unfold loadVideo
  simp only [hv, Option.isSome_some, Bool.true_and, hw, decide_True, if_true,
    Option.bind_eq_bind, Option.some_bind, Option.pure_def]
  split <;> rfl

/-- The small-screen branch, lines 101-108. -/
theorem loadVideo_small {p : Page} {s : St} {v vc : Nat} (hv : s.c.videoBackground = some v)
    (hw : ¬ 768 < p.innerWidth) (hvc : s.c.videoContainer = some vc) :
    loadVideo p s = some
      ((s.setStyle vc (fun st => { st with display := "none" })).setStyle bodyIdx gradientBody) := by
  unfold loadVideo
  simp only [hv, Option.isSome_some, Bool.true_and, hw, decide_False, if_true, hvc,
    Option.bind_eq_bind, Option.some_bind, Option.pure_def]
  rfl

/-- Without a video the branch of lines 18-108 does nothing. -/
theorem loadVideo_none {p : Page} {s : St} (hv : s.c.videoBackground = none) :
    loadVideo p s = some s := by
  unfold loadVideo
  simp only [hv, Option.isSome_none, Bool.false_and]
  rfl

/-- The video branch of the handler returns: in the small-screen branch the video
container is not `null`. -/
theorem loadVideo_inv (p : Page) :
    ∃ s, loadVideo p (initialSt p) = some s ∧ Inv (closureOf p) p.elems.length s := by
  have h0 := inv_initialSt p
  cases hv : querySelectorVideo p.elems with
  | none =>
    have hv' : (initialSt p).c.videoBackground = none := hv
    exact ⟨initialSt p, loadVideo_none hv', h0⟩
  | some v =>
    have hv' : (initialSt p).c.videoBackground = some v := hv
    have hne : (closureOf p).videoBackground ≠ none := by
      intro hn
      have hq : querySelectorVideo p.elems = none := hn
      rw [hv] at hq
      exact absurd hq (by simp)
    by_cases hw : 768 < p.innerWidth
    · refine ⟨_, loadVideo_desktop hv' hw, ?_⟩
      have ht : Inv (closureOf p) p.elems.length
          ((initialSt p).setTimeout TimerAction.fallback 10000).1 := by
        refine ⟨rfl, rfl, h0.desk, fun hn => absurd hn hne, ?_⟩
        intro t ht
        simp [initialSt, St.setTimeout] at ht
        simp [ht]
      split
      · exact ⟨rfl, rfl, h0.desk, fun hn => absurd hn hne, ht.deb⟩
      · exact ht
    · obtain ⟨vc, hvc⟩ := videoContainer_of_video hv
      have hvc' : (initialSt p).c.videoContainer = some vc := hvc
      exact ⟨_, loadVideo_small hv' hw hvc', (h0.setStyle vc _).setStyle bodyIdx _⟩

theorem load_inv (p : Page) :
    ∃ s, load p = some s ∧ Inv (closureOf p) p.elems.length s := by
  obtain ⟨s, hs, hi⟩ := loadVideo_inv p
  exact ⟨loadRest p s, by simp [load, hs], inv_loadRest p hi⟩

theorem reach_inv {p : Page} {evs : List Event} {s : St}
    (hs : (load p).bind (run evs) = some s) : Inv (closureOf p) p.elems.length s := by
  obtain ⟨s0, h0, i0⟩ := load_inv p
  obtain ⟨s1, h1, i1⟩ := run_inv evs s0 i0
  rw [h0, Option.some_bind, h1] at hs
  rw [← Option.some.inj hs]
  exact i1

/-! ## Reading styles and classes after an update -/

theorem styleOf_setStyle_eq (s : St) (i : Nat) (f : Style → Style) :
    (s.setStyle i f).styleOf i = (s.styleOf i).map f := by
  simp only [St.styleOf, St.setStyle, modifyAt_getElem?_eq, Option.map_map]
  rfl

theorem styleOf_setStyle_ne (s : St) {i j : Nat} (f : Style → Style) (h : i ≠ j) :
    (s.setStyle i f).styleOf j = s.styleOf j := by
  simp only [St.styleOf, St.setStyle, modifyAt_getElem?_ne _ i j _ h]

/-- An assignment that leaves the property read by `g` alone does not change what
`g` reads, on any element. -/
theorem styleOf_setStyle_keep {α : Type} (s : St) (i j : Nat) (f : Style → Style)
    (g : Style → α) (hg : ∀ st, g (f st) = g st) :
    ((s.setStyle i f).styleOf j).map g = (s.styleOf j).map g := by
  by_cases h : i = j
  · subst h
    rw [styleOf_setStyle_eq, Option.map_map]
    congr 1
    funext st
    exact hg st
  · rw [styleOf_setStyle_ne s f h]

theorem styleOf_addClass (s : St) (i j : Nat) (c : String) :
    (s.addClass i c).styleOf j = s.styleOf j := by
  by_cases h : i = j
  · subst h
    simp only [St.styleOf, St.addClass, modifyAt_getElem?_eq, Option.map_map]
    congr 1
    funext e
    simp only [Function.comp]
    split <;> rfl
  · simp only [St.styleOf, St.addClass, modifyAt_getElem?_ne _ i j _ h]

theorem styleOf_of_lt (s : St) {i : Nat} (h : i < s.elems.length) :
    ∃ st, s.styleOf i = some st := by
  refine ⟨(s.elems[i]).style, ?_⟩
  simp [St.styleOf, List.getElem?_eq_getElem h]

theorem hasClass_addClass (s : St) {i : Nat} (c : String) (h : i < s.elems.length) :
    (s.addClass i c).hasClass i c = true := by
  simp only [St.hasClass, matchesClass, St.addClass, modifyAt_getElem?_eq,
    List.getElem?_eq_getElem h, Option.map_some']
  by_cases hc : c ∈ (s.elems[i]).classes <;> simp [hc]

theorem hasClass_setStyle (s : St) (i j : Nat) (f : Style → Style) (c : String) :
    (s.setStyle i f).hasClass j c = s.hasClass j c := by
  unfold St.hasClass
  rw [matchesClass_eq, matchesClass_eq]
  have h := modifyAt_classes (fun e => { e with style := f e.style }) (fun _ => rfl) i s.elems
  simp only [St.setStyle]
  rw [h]

theorem hasClass_setAnimatedOpacity (s : St) (value : String) (j : Nat) (c : String) :
    (setAnimatedOpacity value s).hasClass j c = s.hasClass j c := by
  unfold setAnimatedOpacity
  split
  · exact hasClass_setStyle _ _ _ _ _
  · rfl

/-- The guarded assignment writes `value` to the animated background when there is
one. -/
theorem opacity_setAnimatedOpacity (s : St) (value : String) {a : Nat}
    (ha : s.c.animatedBg = some a) :
    ((setAnimatedOpacity value s).styleOf a).map (fun st => st.opacity) =
      (s.styleOf a).map (fun _ => value) := by
  simp only [setAnimatedOpacity, ha, styleOf_setStyle_eq, Option.map_map]
  rfl

/-- The guarded assignment changes no other element. -/
theorem styleOf_setAnimatedOpacity_ne (s : St) (value : String) {j : Nat}
    (hj : s.c.animatedBg ≠ some j) : (setAnimatedOpacity value s).styleOf j = s.styleOf j := by
  unfold setAnimatedOpacity
  split
  · rename_i a ha
    exact styleOf_setStyle_ne s _ (fun e => hj (by rw [ha, e]))
  · rfl

/-- The guarded assignment changes no property but the opacity. -/
theorem styleOf_setAnimatedOpacity_keep {α : Type} (s : St) (value : String) (j : Nat)
    (g : Style → α) (hg : ∀ st v, g { st with opacity := v } = g st) :
    ((setAnimatedOpacity value s).styleOf j).map g = (s.styleOf j).map g := by
  unfold setAnimatedOpacity
  split
  · exact styleOf_setStyle_keep s _ j _ g (fun st => hg st value)
  · rfl

theorem ElemsOnly.appended {s s' : St} (h : ElemsOnly s s') : s'.appended = s.appended := by
  rw [h.1]

theorem elemsOnly_pauseSkillBars (bars : List Nat) (s : St) :
    ElemsOnly s (pauseSkillBars bars s) :=
  elemsOnly_foldl _ (fun s _ => ElemsOnly.ofSetStyle s _ _) _ s

/-- Pausing the skill bars changes no property but `animationPlayState`. -/
theorem pauseSkillBars_keep {α : Type} (g : Style → α)
    (hg : ∀ st v, g { st with animationPlayState := v } = g st) (j : Nat) :
    ∀ (bars : List Nat) (s : St),
      ((pauseSkillBars bars s).styleOf j).map g = (s.styleOf j).map g
  | [], _ => rfl
  | bar :: bars, s => by
    have ih := pauseSkillBars_keep g hg j bars
      (s.setStyle bar (fun st => { st with animationPlayState := "paused" }))
    have hstep := styleOf_setStyle_keep s bar j
      (fun st => { st with animationPlayState := "paused" }) g (fun st => hg st "paused")
    exact ih.trans hstep

/-- The part of the handler after the video branch changes no property but
`animationPlayState`. -/
theorem loadRest_keep {α : Type} (g : Style → α)
    (hg : ∀ st v, g { st with animationPlayState := v } = g st) (p : Page) (s : St) (j : Nat) :
    ((loadRest p s).styleOf j).map g = (s.styleOf j).map g := by
  unfold loadRest
  simp only
  split <;> split <;> exact pauseSkillBars_keep g hg j _ _

/-- The style sheets appended by the part of the handler after the video branch. -/
theorem loadRest_appended (p : Page) (s : St) :
    (loadRest p s).appended =
      (s.appended ++ if s.c.isTouchDevice || decide (p.innerWidth ≤ 768) then [mobileSheet] else [])
        ++ if p.reducedMotion then [reducedMotionSheet] else [] := by
  unfold loadRest
  simp only
  split <;> split <;>
    simp [St.appendSheet, (elemsOnly_pauseSkillBars _ _).appended]

theorem loadRest_timers (p : Page) (s : St) : (loadRest p s).timers = s.timers := by
  unfold loadRest
  simp only
  split <;> split <;> simp [St.appendSheet, (elemsOnly_pauseSkillBars _ _).timers]

/-- The video branch appends no style sheet. -/
theorem loadVideo_appended {p : Page} {s s' : St} (h : loadVideo p s = some s') :
    s'.appended = s.appended := by
  cases hv : s.c.videoBackground with
  | none =>
    rw [loadVideo_none hv] at h
    rw [← Option.some.inj h]
  | some v =>
    by_cases hw : 768 < p.innerWidth
    · rw [loadVideo_desktop hv hw] at h
      rw [← Option.some.inj h]
      split <;> rfl
    · cases hvc : s.c.videoContainer with
      | none =>
        simp [loadVideo, hv, hw, hvc] at h
      | some vc =>
        rw [loadVideo_small hv hw hvc] at h
        rw [← Option.some.inj h]
        rfl

/-- The page after the fallback of lines 47-50: the video `v` has display `'none'`
and the animated background, when there is one, has opacity `'1'`. -/
def Fallen (v : Nat) (animatedBg : Option Nat) (s' : St) : Prop :=
  (s'.styleOf v).map (fun st => st.display) = some "none" ∧
  ∀ a, animatedBg = some a → (s'.styleOf a).map (fun st => st.opacity) = some "1"

theorem fallen_fallback {s : St} {v : Nat} (hv : v < s.elems.length)
    (ha : ∀ a, s.c.animatedBg = some a → a < s.elems.length) :
    Fallen v s.c.animatedBg
      (setAnimatedOpacity "1" (s.setStyle v (fun st => { st with display := "none" }))) := by
  constructor
  · rw [styleOf_setAnimatedOpacity_keep _ _ _ (fun st => st.display) (fun _ _ => rfl),
      styleOf_setStyle_eq]
    obtain ⟨st, hst⟩ := styleOf_of_lt s hv
    rw [hst]
    rfl
  · intro a haa
    have haa' : s.c.animatedBg = some a := haa
    rw [opacity_setAnimatedOpacity _ _ (by rw [setStyle_c]; exact haa')]
    have hl : a < (s.setStyle v (fun st => { st with display := "none" })).elems.length := by
      simp only [St.setStyle, modifyAt_length]
      exact ha a haa'
    obtain ⟨st, hst⟩ := styleOf_of_lt _ hl
    rw [hst]
    rfl

/-- In a reachable state of a page loaded on the desktop branch, the closure holds
the video, the listeners are registered and both indices are in range. -/
theorem reach_desktop {p : Page} {evs : List Event} {s : St} {v : Nat}
    (hw : 768 < p.innerWidth) (hv : querySelectorVideo p.elems = some v)
    (hs : (load p).bind (run evs) = some s) :
    s.c.videoBackground = some v ∧ s.c.desktop = true ∧ v < s.elems.length ∧
      s.c.animatedBg = querySelectorClass "animated-bg" p.elems ∧
      ∀ a, s.c.animatedBg = some a → a < s.elems.length := by
  have hi := reach_inv hs
  refine ⟨by rw [hi.c_eq]; exact hv, ?_, by rw [hi.len]; exact querySelectorVideo_lt hv,
    by rw [hi.c_eq]; rfl, ?_⟩
  · rw [hi.c_eq]
    simp [closureOf, hv, hw]
  · intro a ha
    rw [hi.c_eq] at ha
    rw [hi.len]
    exact querySelectorClass_lt ha

/-! ## The resize debounce -/

theorem advance_succ (k : Nat) (s : St) : advance (k + 1) s = (advance k s).bind tick := by
  simp only [advance, run, List.replicate_succ', List.foldlM_append]
  cases h : List.foldlM (fun s ev => dispatch ev s) s (List.replicate k Event.tick) with
  | none => rfl
  | some s2 =>
    simp only [Option.bind_eq_bind, Option.some_bind, List.foldlM_cons, List.foldlM_nil, dispatch]
    cases tick s2 <;> rfl

/-- The `resize` listener leaves exactly one pending resize timer, due 250 ms
later, and runs no callback itself. -/
theorem onResize_spec {c0 : Closure} {n : Nat} {s : St} (h : Inv c0 n s) :
    pendingResize (onResize s) = [⟨s.nextTimer, s.now + 250, TimerAction.resize⟩] ∧
    resizeRuns (onResize s) = resizeRuns s ∧ (onResize s).now = s.now ∧
    (onResize s).innerWidth = s.innerWidth := by
  refine ⟨?_, rfl, rfl, rfl⟩
  have hnone : (s.timers.filter (fun t => decide (some t.id ≠ s.resizeTimeout))).filter
      (fun t => decide (t.action = TimerAction.resize)) = [] := by
    rw [List.filter_eq_nil_iff]
    intro t ht hr
    have hmem := List.mem_filter.mp ht
    have hid := h.deb t hmem.1 (by simpa using hr)
    have hne := hmem.2
    simp [hid] at hne
  simp only [pendingResize, onResize, St.setTimeout, St.clearTimeout, List.filter_append, hnone,
    List.nil_append]
  simp [List.filter]

/-- Time passing after a resize: the one pending resize timer stays in the queue
until it is due, then its callback runs once and the timer is gone. -/
theorem advance_pending {c0 : Closure} {n : Nat} {s : St} {t : Timer} (h : Inv c0 n s)
    (hp : pendingResize s = [t]) (hd : s.now < t.due) :
    ∀ k, ∃ s', advance k s = some s' ∧ Inv c0 n s' ∧ s'.now = s.now + k ∧
      s'.innerWidth = s.innerWidth ∧
      resizeRuns s' = resizeRuns s + (if t.due ≤ s.now + k then 1 else 0) ∧
      pendingResize s' = (if t.due ≤ s.now + k then [] else [t])
  | 0 => by
    refine ⟨s, rfl, h, rfl, rfl, ?_, ?_⟩
    · have hn : ¬ t.due ≤ s.now + 0 := by omega
      rw [if_neg hn]
      rfl
    · have hn : ¬ t.due ≤ s.now + 0 := by omega
      rw [if_neg hn, hp]
  | k + 1 => by
    obtain ⟨s2, e2, i2, n2, w2, r2, p2⟩ := advance_pending h hp hd k
    obtain ⟨s3, e3, i3, n3, w3, r3, p3, _⟩ := tick_spec i2
    refine ⟨s3, by rw [advance_succ, e2]; exact e3, i3, by omega, w3.trans w2, ?_, ?_⟩
    · rw [r3, r2, p2, n2]
      by_cases h1 : t.due ≤ s.now + k
      · have h2 : t.due ≤ s.now + (k + 1) := by omega
        simp [h1, h2]
      · by_cases h2 : t.due ≤ s.now + (k + 1)
        · have h2' : t.due ≤ s.now + k + 1 := h2
          simp [h1, h2, h2', List.filter]
        · have h2' : ¬ t.due ≤ s.now + k + 1 := h2
          simp [h1, h2, h2', List.filter]
    · rw [p3, p2, n2]
      by_cases h1 : t.due ≤ s.now + k
      · have h2 : t.due ≤ s.now + (k + 1) := by omega
        simp [h1, h2]
      · by_cases h2 : t.due ≤ s.now + (k + 1)
        · have h2' : t.due ≤ s.now + k + 1 := h2
          simp [h1, h2, h2', List.filter]
        · have h2' : ¬ t.due ≤ s.now + k + 1 := h2
          simp [h1, h2, h2', List.filter]

theorem resetShapes_classes (s : St) :
    (resetShapes s).elems.map (fun e => e.classes) = s.elems.map (fun e => e.classes) := by
  unfold resetShapes
  generalize querySelectorAllClass "floating-shape" s.elems = l
  induction l generalizing s with
  | nil => rfl
  | cons a l ih =>
    simp only [List.foldl_cons]
    rw [ih]
    exact modifyAt_classes (fun e => { e with style := { e.style with transform := Transform.css "" } })
      (fun _ => rfl) a s.elems

/-- The debounced body sets the container's display from the width it reads. -/
theorem onResizeTimer_display (t : St) (vc : Nat)
    (hvc : querySelectorClass "video-background" t.elems = some vc) :
    ((onResizeTimer t).styleOf vc).map (fun st => st.display) =
      some (if t.innerWidth ≤ 768 then "none" else "block") := by
  have hlt : vc < t.elems.length := querySelectorClass_lt hvc
  unfold onResizeTimer
  by_cases hw : t.innerWidth ≤ 768
  · have hq : querySelectorClass "video-background" (resetShapes t).elems = some vc := by
      rw [querySelectorClass_congr _ _ _ (resetShapes_classes t)]
      exact hvc
    have hw' : (resetShapes t).innerWidth = t.innerWidth := (elemsOnly_resetShapes t).innerWidth
    simp only [hw, if_true, hq, styleOf_setStyle_eq]
    have hl : vc < (resetShapes t).elems.length := by
      rw [(elemsOnly_resetShapes t).2]
      exact hlt
    obtain ⟨st, hst⟩ := styleOf_of_lt _ hl
    rw [hst]
    rfl
  · have hw2 : 768 < t.innerWidth := by omega
    simp only [hw, if_false, hw2, if_true, hvc, styleOf_setStyle_eq]
    obtain ⟨st, hst⟩ := styleOf_of_lt _ hlt
    rw [hst]
    rfl

/-! ## Rounding to a double -/

theorem roundHalfEven_intCast (m : ℤ) : roundHalfEven (m : ℚ) = m := by
  simp [roundHalfEven]

theorem roundHalfEven_mem (x : ℚ) : roundHalfEven x = ⌊x⌋ ∨ roundHalfEven x = ⌊x⌋ + 1 := by
  unfold roundHalfEven
  simp only
  split_ifs <;> simp

theorem roundHalfEven_mono {x y : ℚ} (h : x ≤ y) : roundHalfEven x ≤ roundHalfEven y := by
  have hf : ⌊x⌋ ≤ ⌊y⌋ := Int.floor_mono h
  rcases lt_or_eq_of_le hf with hlt | heq
  · have hx : roundHalfEven x ≤ ⌊x⌋ + 1 := by
      rcases roundHalfEven_mem x with e | e <;> omega
    have hy : ⌊y⌋ ≤ roundHalfEven y := by
      rcases roundHalfEven_mem y with e | e <;> omega
    omega
  · have hr : x - (⌊x⌋ : ℚ) ≤ y - (⌊x⌋ : ℚ) := by linarith
    unfold roundHalfEven
    simp only [← heq]
    split_ifs <;> first | omega | (exfalso; linarith)

theorem roundHalfEven_near {x : ℚ} {m : ℤ} (h : |x - m| < 1 / 2) : roundHalfEven x = m := by
  rw [abs_lt] at h
  by_cases hx : (m : ℚ) ≤ x
  · have hf : ⌊x⌋ = m := by
      rw [Int.floor_eq_iff]
      constructor
      · exact hx
      · linarith [h.2]
    unfold roundHalfEven
    simp only [hf]
    rw [if_pos h.2]
  · have hf : ⌊x⌋ = m - 1 := by
      rw [Int.floor_eq_iff]
      push_cast
      constructor
      · linarith [h.1]
      · linarith
    unfold roundHalfEven
    simp only [hf]
    have h1 : ¬ (x - ((m - 1 : ℤ) : ℚ) < 1 / 2) := by push_cast; linarith [h.1]
    have h2 : 1 / 2 < x - ((m - 1 : ℤ) : ℚ) := by push_cast; linarith [h.1]
    rw [if_neg h1, if_pos h2]
    omega

theorem roundHalfEven_tie {x : ℚ} {m : ℤ} (h : x = m + 1 / 2) (hm : m % 2 = 0) :
    roundHalfEven x = m := by
  have hf : ⌊x⌋ = m := by
    rw [Int.floor_eq_iff]
    constructor <;> linarith
  unfold roundHalfEven
  simp only [hf]
  have h1 : ¬ (x - (m : ℚ) < 1 / 2) := by linarith
  have h2 : ¬ (1 / 2 < x - (m : ℚ)) := by linarith
  rw [if_neg h1, if_neg h2, if_pos hm]



theorem exponentOf_ge (a : ℚ) : -1074 ≤ exponentOf a := le_max_right _ _

theorem exponentOf_mono {a b : ℚ} (ha : 0 < a) (h : a ≤ b) : exponentOf a ≤ exponentOf b := by
  unfold exponentOf
  have := Int.log_mono_right (b := 2) ha h
  omega

theorem two_zpow_pos (e : ℤ) : (0 : ℚ) < 2 ^ e := zpow_pos (by norm_num) e

/-- The scaled value is below `2 ^ 53`. -/
theorem scaled_lt (a : ℚ) : a / 2 ^ exponentOf a < 2 ^ (53 : ℤ) := by
  have h1 : a < (2 : ℚ) ^ (Int.log 2 a + 1) := by
    have := Int.lt_zpow_succ_log_self (b := 2) (by norm_num) a
    exact_mod_cast this
  have h2 : Int.log 2 a + 1 ≤ exponentOf a + 53 := by
    have : Int.log 2 a - 52 ≤ exponentOf a := le_max_left _ _
    omega
  have h3 : (2 : ℚ) ^ (Int.log 2 a + 1) ≤ 2 ^ (exponentOf a + 53) :=
    zpow_le_zpow_right₀ (by norm_num) h2
  rw [div_lt_iff₀ (two_zpow_pos _), ← zpow_add₀ (by norm_num : (2 : ℚ) ≠ 0)]
  calc a < 2 ^ (Int.log 2 a + 1) := h1
    _ ≤ 2 ^ (exponentOf a + 53) := h3
    _ = 2 ^ (53 + exponentOf a) := by rw [add_comm]

/-- Above the subnormal range the scaled value is at least `2 ^ 52`. -/
theorem scaled_ge {a : ℚ} (ha : 0 < a) (he : -1074 < exponentOf a) :
    (2 : ℚ) ^ (52 : ℤ) ≤ a / 2 ^ exponentOf a := by
  have hE : exponentOf a = Int.log 2 a - 52 := by
    unfold exponentOf at he ⊢
    omega
  have h1 : (2 : ℚ) ^ (Int.log 2 a) ≤ a := by
    have := Int.zpow_log_le_self (b := 2) (by norm_num) ha
    exact_mod_cast this
  rw [le_div_iff₀ (two_zpow_pos _), ← zpow_add₀ (by norm_num : (2 : ℚ) ≠ 0), hE]
  have : (52 : ℤ) + (Int.log 2 a - 52) = Int.log 2 a := by omega
  rw [this]
  exact h1

theorem roundPos_nonneg {a : ℚ} (ha : 0 ≤ a) : 0 ≤ roundPos a := by
  unfold roundPos
  have h0 : (0 : ℚ) ≤ a / 2 ^ exponentOf a := div_nonneg ha (two_zpow_pos _).le
  have h1 : roundHalfEven ((0 : ℤ) : ℚ) ≤ roundHalfEven (a / 2 ^ exponentOf a) :=
    roundHalfEven_mono (by simpa using h0)
  rw [roundHalfEven_intCast] at h1
  exact mul_nonneg (by exact_mod_cast h1) (two_zpow_pos _).le

theorem roundPos_mono {a b : ℚ} (ha : 0 < a) (h : a ≤ b) : roundPos a ≤ roundPos b := by
  have hb : 0 < b := lt_of_lt_of_le ha h
  have he := exponentOf_mono ha h
  rcases lt_or_eq_of_le he with hlt | heq
  · -- different binades
    have hA : roundHalfEven (a / 2 ^ exponentOf a) ≤ 2 ^ 53 := by
      have := roundHalfEven_mono (scaled_lt a).le
      have h2 : ((2 : ℚ) ^ (53 : ℤ)) = (((2 : ℤ) ^ 53 : ℤ) : ℚ) := by norm_num
      rw [h2, roundHalfEven_intCast] at this
      exact this
    have hB : 2 ^ 52 ≤ roundHalfEven (b / 2 ^ exponentOf b) := by
      have hgt : -1074 < exponentOf b := lt_of_le_of_lt (exponentOf_ge a) hlt
      have := roundHalfEven_mono (scaled_ge hb hgt)
      have h2 : ((2 : ℚ) ^ (52 : ℤ)) = (((2 : ℤ) ^ 52 : ℤ) : ℚ) := by norm_num
      rw [h2, roundHalfEven_intCast] at this
      exact this
    unfold roundPos
    have hA' : (roundHalfEven (a / 2 ^ exponentOf a) : ℚ) ≤ 2 ^ (53 : ℤ) := by
      have h : ((roundHalfEven (a / 2 ^ exponentOf a) : ℤ) : ℚ) ≤ ((2 ^ 53 : ℤ) : ℚ) := by
        exact_mod_cast hA
      norm_num at h ⊢
      exact h
    have hB' : (2 : ℚ) ^ (52 : ℤ) ≤ (roundHalfEven (b / 2 ^ exponentOf b) : ℚ) := by
      have h : ((2 ^ 52 : ℤ) : ℚ) ≤ ((roundHalfEven (b / 2 ^ exponentOf b) : ℤ) : ℚ) := by
        exact_mod_cast hB
      norm_num at h ⊢
      exact h
    calc (roundHalfEven (a / 2 ^ exponentOf a) : ℚ) * 2 ^ exponentOf a
        ≤ 2 ^ (53 : ℤ) * 2 ^ exponentOf a :=
          mul_le_mul_of_nonneg_right hA' (two_zpow_pos _).le
      _ = 2 ^ (53 + exponentOf a) := by rw [zpow_add₀ (by norm_num : (2 : ℚ) ≠ 0)]
      _ ≤ 2 ^ (52 + exponentOf b) := zpow_le_zpow_right₀ (by norm_num) (by omega)
      _ = 2 ^ (52 : ℤ) * 2 ^ exponentOf b := by rw [zpow_add₀ (by norm_num : (2 : ℚ) ≠ 0)]
      _ ≤ (roundHalfEven (b / 2 ^ exponentOf b) : ℚ) * 2 ^ exponentOf b :=
          mul_le_mul_of_nonneg_right hB' (two_zpow_pos _).le
  · unfold roundPos
    rw [heq]
    have : a / 2 ^ exponentOf b ≤ b / 2 ^ exponentOf b :=
      div_le_div_of_nonneg_right h (two_zpow_pos _).le
    have hm := roundHalfEven_mono this
    exact mul_le_mul_of_nonneg_right (by exact_mod_cast hm) (two_zpow_pos _).le

/-- A positive double is its own rounding. -/
theorem roundPos_exact {a : ℚ} {m e : ℤ} (hm0 : 0 < m) (hm : m < 2 ^ 53) (he : -1074 ≤ e)
    (ha : a = m * 2 ^ e) : roundPos a = a := by
  have hmq : (0 : ℚ) < (m : ℚ) := by exact_mod_cast hm0
  have hpos : 0 < a := by rw [ha]; exact mul_pos hmq (two_zpow_pos e)
  have hlt : a < (2 : ℚ) ^ (e + 53) := by
    rw [ha, add_comm, zpow_add₀ (by norm_num : (2 : ℚ) ≠ 0)]
    have h : ((m : ℤ) : ℚ) < ((2 ^ 53 : ℤ) : ℚ) := by exact_mod_cast hm
    have h' : (m : ℚ) < 2 ^ (53 : ℤ) := by
      norm_num at h ⊢
      exact h
    exact mul_lt_mul_of_pos_right h' (two_zpow_pos e)
  have hlog : Int.log 2 a < e + 53 := by
    have := (Int.lt_zpow_iff_log_lt (b := 2) (by norm_num) hpos).mp (by exact_mod_cast hlt)
    exact this
  have hE : exponentOf a ≤ e := by
    unfold exponentOf
    omega
  unfold roundPos
  generalize exponentOf a = E at hE
  obtain ⟨k, hk⟩ : ∃ k : ℕ, e = E + k := ⟨(e - E).toNat, by omega⟩
  have hscaled : a / 2 ^ E = ((m * 2 ^ k : ℤ) : ℚ) := by
    rw [div_eq_iff (two_zpow_pos _).ne', ha, hk, zpow_add₀ (by norm_num : (2 : ℚ) ≠ 0)]
    push_cast
    rw [zpow_natCast]
    ring
  rw [hscaled, roundHalfEven_intCast, ← hscaled]
  exact div_mul_cancel₀ a (two_zpow_pos _).ne'

theorem maxDouble_ge {m e : ℤ} (hm : m < 2 ^ 53) (hm0 : 0 < m) (he : e ≤ 971) :
    (m : ℚ) * 2 ^ e ≤ maxDouble := by
  unfold maxDouble
  have h1 : (m : ℚ) ≤ 2 ^ 53 - 1 := by
    have : m ≤ 2 ^ 53 - 1 := by omega
    have h : ((m : ℤ) : ℚ) ≤ ((2 ^ 53 - 1 : ℤ) : ℚ) := by exact_mod_cast this
    norm_num at h ⊢
    exact h
  have h2 : (2 : ℚ) ^ e ≤ 2 ^ (971 : ℤ) := zpow_le_zpow_right₀ (by norm_num) he
  have h3 : (0 : ℚ) ≤ (m : ℚ) := by exact_mod_cast hm0.le
  calc (m : ℚ) * 2 ^ e ≤ (m : ℚ) * 2 ^ (971 : ℤ) := mul_le_mul_of_nonneg_left h2 h3
    _ ≤ (2 ^ 53 - 1) * 2 ^ (971 : ℤ) := mul_le_mul_of_nonneg_right h1 (two_zpow_pos _).le
    _ = (2 ^ 53 - 1) * 2 ^ 971 := by norm_num

/-- A double is its own rounding. -/
theorem toDouble_exact {q : ℚ} (h : IsDouble q) : toDouble q = Num.fin q := by
  obtain ⟨m, e, hm, he1, he2, hq⟩ := h
  unfold toDouble
  by_cases h0 : q = 0
  · simp [h0]
  · have hm0 : m ≠ 0 := by
      intro hz
      apply h0
      rw [hq, hz]
      simp
    have habs : |q| = ((|m| : ℤ) : ℚ) * 2 ^ e := by
      rw [hq, abs_mul, abs_of_pos (two_zpow_pos e)]
      push_cast
      rfl
    have hr : roundPos |q| = |q| :=
      roundPos_exact (abs_pos.mpr hm0) hm he1 habs
    have hmax : ¬ maxDouble < roundPos |q| := by
      rw [hr, habs]
      exact not_lt.mpr (maxDouble_ge hm (abs_pos.mpr hm0) he2)
    rw [if_neg h0, if_neg hmax, hr]
    by_cases hneg : q < 0
    · rw [if_pos hneg, abs_of_neg hneg, neg_neg]
    · rw [if_neg hneg, abs_of_nonneg (not_lt.mp hneg)]

/-- Rounding keeps a bound that is itself a double. -/
theorem toDouble_abs_le {q B : ℚ} {m e : ℤ} (hm0 : 0 < m) (hm : m < 2 ^ 53) (he1 : -1074 ≤ e)
    (he2 : e ≤ 971) (hB : B = m * 2 ^ e) (h : |q| ≤ B) :
    ∃ r, toDouble q = Num.fin r ∧ |r| ≤ B := by
  unfold toDouble
  by_cases h0 : q = 0
  · refine ⟨0, by simp [h0], ?_⟩
    rw [abs_zero]
    exact le_trans (abs_nonneg q) h
  · have hle : roundPos |q| ≤ B := by
      have := roundPos_mono (abs_pos.mpr h0) h
      rwa [roundPos_exact hm0 hm he1 hB] at this
    have hmax : ¬ maxDouble < roundPos |q| := by
      apply not_lt.mpr
      exact le_trans hle (by rw [hB]; exact maxDouble_ge hm hm0 he2)
    have hnn : 0 ≤ roundPos |q| := roundPos_nonneg (abs_nonneg q)
    rw [if_neg h0, if_neg hmax]
    by_cases hneg : q < 0
    · exact ⟨_, by rw [if_pos hneg], by rw [abs_neg, abs_of_nonneg hnn]; exact hle⟩
    · exact ⟨_, by rw [if_neg hneg], by rw [abs_of_nonneg hnn]; exact hle⟩

/-- Rounding keeps the sign. -/
theorem toDouble_nonneg {q r : ℚ} (hq : 0 ≤ q) (h : toDouble q = Num.fin r) : 0 ≤ r := by
  unfold toDouble at h
  by_cases h0 : q = 0
  · rw [if_pos h0] at h
    injection h with h
    rw [← h]
  · rw [if_neg h0] at h
    split at h
    · exact absurd h (by simp)
    · rw [if_neg (not_lt.mpr hq)] at h
      injection h with h
      rw [← h]
      exact roundPos_nonneg (abs_nonneg q)

/-- Evaluating a rounding: `q` lies in the binade of exponent `e` and its scaled
value rounds to `m`. -/
theorem toDouble_eval {q : ℚ} {m e : ℤ} (hq0 : q ≠ 0) (he : -1074 ≤ e)
    (hlo : (2 : ℚ) ^ (e + 52) ≤ |q|) (hhi : |q| < (2 : ℚ) ^ (e + 53))
    (hr : roundHalfEven (|q| / 2 ^ e) = m) (hmax : (m : ℚ) * 2 ^ e ≤ maxDouble) :
    toDouble q = Num.fin (if q < 0 then -((m : ℚ) * 2 ^ e) else (m : ℚ) * 2 ^ e) := by
  have hpos : 0 < |q| := abs_pos.mpr hq0
  have hlog : Int.log 2 |q| = e + 52 := by
    apply le_antisymm
    · have := (Int.lt_zpow_iff_log_lt (b := 2) (by norm_num) hpos).mp (by exact_mod_cast hhi)
      omega
    · exact (Int.zpow_le_iff_le_log (b := 2) (by norm_num) hpos).mp (by exact_mod_cast hlo)
  have hE : exponentOf |q| = e := by
    unfold exponentOf
    rw [hlog]
    omega
  have hrp : roundPos |q| = (m : ℚ) * 2 ^ e := by
    unfold roundPos
    rw [hE, hr]
  unfold toDouble
  rw [if_neg hq0, hrp, if_neg (not_lt.mpr hmax)]

theorem toDouble_zero : toDouble 0 = Num.fin 0 := by
  simp [toDouble]

/-- A natural number below `2 ^ 53` is a double. -/
theorem isDouble_natCast {k : Nat} (h : k < 2 ^ 53) : IsDouble (k : ℚ) :=
  ⟨(k : ℤ), 0, by rw [abs_of_nonneg (Int.natCast_nonneg k)]; exact_mod_cast h, by norm_num,
    by norm_num, by simp⟩

/-! ## The parallax -/

theorem styleOf_setTranslate_ne (s : St) {shape j : Nat} (x y : Num) (h : shape ≠ j) :
    (setTranslate shape x y s).styleOf j = s.styleOf j := by
  unfold setTranslate
  split
  · exact styleOf_setStyle_ne s _ h
  · rfl

theorem moveShapes_not_mem (mx my : Num) (j : Nat) :
    ∀ (l : List Nat) (k : Nat) (s : St), j ∉ l →
      (moveShapes mx my k l s).styleOf j = s.styleOf j
  | [], _, _, _ => rfl
  | a :: l, k, s, h => by
    have ha : a ≠ j := fun e => h (by rw [e]; exact List.mem_cons_self j l)
    have hl : j ∉ l := fun e => h (List.mem_cons_of_mem a e)
    show (moveShapes mx my (k + 1) l _).styleOf j = s.styleOf j
    rw [moveShapes_not_mem mx my j l (k + 1) _ hl]
    exact styleOf_setTranslate_ne s _ _ ha

/-- After the loop of lines 160-165 the shape at position `i` carries the
translation computed from `i`, when both offsets are finite. -/
theorem moveShapes_spec (mx my : Num) :
    ∀ (l : List Nat) (k : Nat) (s : St), l.Nodup → (∀ a ∈ l, a < s.elems.length) →
      ∀ (i shape : Nat) (x y : ℚ), l[i]? = some shape →
        parallaxOffset mx (k + i) = Num.fin x → parallaxOffset my (k + i) = Num.fin y →
        ((moveShapes mx my k l s).styleOf shape).map (fun st => st.transform) =
          some (Transform.translate x y)
  | [], _, _, _, _, i, shape, _, _, h, _, _ => by simp at h
  | a :: l, k, s, hnd, hlt, 0, shape, x, y, h, hx, hy => by
    have hs : a = shape := by simpa using h
    subst hs
    have hnot : a ∉ l := (List.nodup_cons.mp hnd).1
    show ((moveShapes mx my (k + 1) l _).styleOf a).map _ = _
    rw [Nat.add_zero] at hx hy
    rw [moveShapes_not_mem mx my a l (k + 1) _ hnot, hx, hy]
    show ((s.setStyle a _).styleOf a).map _ = _
    rw [styleOf_setStyle_eq]
    obtain ⟨st, hst⟩ := styleOf_of_lt s (hlt a (List.mem_cons_self a l))
    rw [hst]
    rfl
  | a :: l, k, s, hnd, hlt, i + 1, shape, x, y, h, hx, hy => by
    have h' : l[i]? = some shape := by simpa using h
    have hk : k + 1 + i = k + (i + 1) := by omega
    exact moveShapes_spec mx my l (k + 1)
      (setTranslate a (parallaxOffset mx k) (parallaxOffset my k) s)
      (List.nodup_cons.mp hnd).2
      (fun b hb => by
        rw [(elemsOnly_setTranslate _ _ _ s).2]
        exact hlt b (List.mem_cons_of_mem a hb)) i shape x y h'
      (by rw [hk]; exact hx) (by rw [hk]; exact hy)

theorem querySelectorAllClass_nodup (c : String) (els : List Elem) :
    (querySelectorAllClass c els).Nodup :=
  (List.nodup_range els.length).filter _

theorem querySelectorAllClass_lt (c : String) (els : List Elem) :
    ∀ a ∈ querySelectorAllClass c els, a < els.length := by
  intro a ha
  exact List.mem_range.mp (List.mem_filter.mp ha).1

theorem div_fin {a b : ℚ} (hb : b ≠ 0) : Num.div (Num.fin a) (Num.fin b) = toDouble (a / b) := by
  show (if b = 0 then _ else toDouble (a / b)) = _
  rw [if_neg hb]

/-- The factor `speed` of line 161 is computed exactly. -/
theorem speed_exact {index : Nat} (hi : index < 2 ^ 32) :
    Num.mul (Num.add (Num.fin index) (Num.fin 1)) (Num.fin (1 / 2)) =
      Num.fin (((index : ℚ) + 1) / 2) := by
  have h1 : Num.add (Num.fin index) (Num.fin 1) = Num.fin ((index : ℚ) + 1) := by
    show toDouble ((index : ℚ) + 1) = _
    have hd : IsDouble (((index + 1 : Nat) : ℚ)) := isDouble_natCast (by omega)
    push_cast at hd
    exact toDouble_exact hd
  rw [h1]
  show toDouble (((index : ℚ) + 1) * (1 / 2)) = _
  have hd : IsDouble (((index : ℚ) + 1) * (1 / 2)) :=
    ⟨((index + 1 : Nat) : ℤ), -1,
      by rw [abs_of_nonneg (Int.natCast_nonneg _)]; exact_mod_cast (by omega : index + 1 < 2 ^ 53),
      by norm_num, by norm_num, by push_cast; rw [zpow_neg_one]; ring⟩
  rw [toDouble_exact hd]
  congr 1
  ring

/-- The offset of lines 161-163 for a pointer inside the viewport: a finite double
within `12.5 * (index + 1)` of zero. -/
theorem parallaxOffset_bound {c : ℚ} {W index : Nat} (hW : 0 < W) (h0 : 0 ≤ c)
    (h1 : c ≤ W) (hi : index < 2 ^ 32) :
    ∃ x, parallaxOffset (Num.div (Num.fin c) (Num.fin W)) index = Num.fin x ∧
      |x| ≤ 25 / 2 * ((index : ℚ) + 1) := by
  have hWq : (0 : ℚ) < (W : ℚ) := by exact_mod_cast hW
  have hidx : (0 : ℚ) ≤ (index : ℚ) + 1 := by positivity
  -- mouse = clientX / innerWidth
  have hdiv : Num.div (Num.fin c) (Num.fin W) = toDouble (c / W) := by
    show (if (W : ℚ) = 0 then _ else toDouble (c / W)) = _
    rw [if_neg hWq.ne']
  have hq0 : |c / (W : ℚ)| ≤ 1 := by
    rw [abs_of_nonneg (div_nonneg h0 hWq.le)]
    exact (div_le_one hWq).mpr h1
  obtain ⟨r0, e0, b0⟩ := toDouble_abs_le (m := 1) (e := 0) (by norm_num) (by norm_num)
    (by norm_num) (by norm_num) (by norm_num : (1 : ℚ) = ((1 : ℤ) : ℚ) * 2 ^ (0 : ℤ)) hq0
  have n0 : 0 ≤ r0 := toDouble_nonneg (div_nonneg h0 hWq.le) e0
  -- mouse - 0.5
  have hq1 : |r0 - 1 / 2| ≤ 1 / 2 := by
    rw [abs_le] at b0 ⊢
    constructor <;> linarith [b0.2]
  obtain ⟨r1, e1, b1⟩ := toDouble_abs_le (m := 1) (e := -1) (by norm_num) (by norm_num)
    (by norm_num) (by norm_num) (by norm_num : (1 / 2 : ℚ) = ((1 : ℤ) : ℚ) * 2 ^ (-1 : ℤ)) hq1
  -- (mouse - 0.5) * speed
  have hq2 : |r1 * (((index : ℚ) + 1) / 2)| ≤ ((index + 1 : Nat) : ℤ) * (2 : ℚ) ^ (-2 : ℤ) := by
    rw [abs_mul, abs_of_nonneg (div_nonneg hidx (by norm_num : (0 : ℚ) ≤ 2))]
    have : |r1| * (((index : ℚ) + 1) / 2) ≤ 1 / 2 * (((index : ℚ) + 1) / 2) :=
      mul_le_mul_of_nonneg_right b1 (div_nonneg hidx (by norm_num))
    push_cast
    rw [show (2 : ℚ) ^ (-2 : ℤ) = 1 / 4 by norm_num]
    linarith
  obtain ⟨r2, e2, b2⟩ := toDouble_abs_le (m := ((index + 1 : Nat) : ℤ)) (e := -2)
    (by exact_mod_cast Nat.succ_pos index)
    (by exact_mod_cast (by omega : index + 1 < 2 ^ 53)) (by norm_num) (by norm_num) rfl hq2
  -- ... * 50
  have hq3 : |r2 * 50| ≤ ((25 * (index + 1) : Nat) : ℤ) * (2 : ℚ) ^ (-1 : ℤ) := by
    rw [abs_mul, abs_of_pos (by norm_num : (0 : ℚ) < 50)]
    have : |r2| * 50 ≤ ((index + 1 : Nat) : ℤ) * (2 : ℚ) ^ (-2 : ℤ) * 50 :=
      mul_le_mul_of_nonneg_right b2 (by norm_num)
    push_cast at this ⊢
    rw [show (2 : ℚ) ^ (-2 : ℤ) = 1 / 4 by norm_num] at this
    rw [show (2 : ℚ) ^ (-1 : ℤ) = 1 / 2 by norm_num]
    linarith
  obtain ⟨r3, e3, b3⟩ := toDouble_abs_le (m := ((25 * (index + 1) : Nat) : ℤ)) (e := -1)
    (by exact_mod_cast (by omega : 0 < 25 * (index + 1)))
    (by exact_mod_cast (by omega : 25 * (index + 1) < 2 ^ 53)) (by norm_num) (by norm_num)
    rfl hq3
  refine ⟨r3, ?_, ?_⟩
  · unfold parallaxOffset
    simp only
    rw [speed_exact hi, hdiv, e0]
    show Num.mul (Num.mul (toDouble (r0 - 1 / 2)) _) _ = _
    rw [e1]
    show Num.mul (toDouble (r1 * (((index : ℚ) + 1) / 2))) _ = _
    rw [e2]
    exact e3
  · have hb : (((25 * (index + 1) : Nat) : ℤ) : ℚ) * (2 : ℚ) ^ (-1 : ℤ) =
        25 / 2 * ((index : ℚ) + 1) := by
      push_cast
      rw [show (2 : ℚ) ^ (-1 : ℤ) = 1 / 2 by norm_num]
      ring
    rw [← hb]
    exact b3

/-- At the centre of the viewport the offset is zero. -/
theorem parallaxOffset_centre {c : ℚ} {W index : Nat} (hW : 0 < W) (hc : c = (W : ℚ) / 2)
    (hi : index < 2 ^ 32) :
    parallaxOffset (Num.div (Num.fin c) (Num.fin W)) index = Num.fin 0 := by
  have hWq : (0 : ℚ) < (W : ℚ) := by exact_mod_cast hW
  have hdiv : Num.div (Num.fin c) (Num.fin W) = Num.fin (1 / 2) := by
    show (if (W : ℚ) = 0 then _ else toDouble (c / W)) = _
    rw [if_neg hWq.ne', hc]
    have : (W : ℚ) / 2 / (W : ℚ) = 1 / 2 := by
      field_simp
      ring
    rw [this]
    exact toDouble_exact ⟨1, -1, by norm_num, by norm_num, by norm_num, by norm_num⟩
  unfold parallaxOffset
  simp only
  rw [speed_exact hi, hdiv]
  show Num.mul (Num.mul (toDouble (1 / 2 - 1 / 2)) _) _ = _
  rw [sub_self, toDouble_zero]
  show Num.mul (toDouble (0 * _)) _ = _
  rw [zero_mul, toDouble_zero]
  show toDouble (0 * 50) = _
  rw [zero_mul, toDouble_zero]

/-! ## The state in which the debounced body runs -/

/-- The class lists of the document. -/
def classesOf (s : St) : List (List String) :=
  s.elems.map (fun e => e.classes)

/-- Every timer of the list holds the last stage of a button animation. -/
def OnlyBtnReset (l : List Timer) : Prop :=
  ∀ u ∈ l, ∃ b, u.action = TimerAction.btnReset b

theorem classesOf_setStyle (s : St) (i : Nat) (f : Style → Style) :
    classesOf (s.setStyle i f) = classesOf s :=
  modifyAt_classes (fun e => { e with style := f e.style }) (fun _ => rfl) i s.elems

theorem classesOf_setAnimatedOpacity (value : String) (s : St) :
    classesOf (setAnimatedOpacity value s) = classesOf s := by
  unfold setAnimatedOpacity
  split
  · exact classesOf_setStyle _ _ _
  · rfl

theorem classesOf_onResizeTimer (s : St) : classesOf (onResizeTimer s) = classesOf s := by
  unfold onResizeTimer
  simp only
  split
  · split
    · exact (classesOf_setStyle _ _ _).trans (resetShapes_classes s)
    · exact resetShapes_classes s
  · split
    · split
      · exact classesOf_setStyle _ _ _
      · rfl
    · rfl

theorem classesOf_onOrientTimer (s : St) : classesOf (onOrientTimer s) = classesOf s := by
  unfold onOrientTimer
  simp only
  split
  · split
    · exact (classesOf_setStyle _ _ _).trans (resetShapes_classes s)
    · exact resetShapes_classes s
  · exact resetShapes_classes s

theorem classesOf_onBtnGrow (b : Nat) (s : St) : classesOf (onBtnGrow b s) = classesOf s :=
  classesOf_setStyle s b (fun st => { st with transform := Transform.css "scale(1.1)" })

theorem classesOf_onBtnReset (b : Nat) (s : St) : classesOf (onBtnReset b s) = classesOf s :=
  classesOf_setStyle s b (fun st => { st with transform := Transform.css "" })

/-- A timer callback changes no class list and no width, and the only timers it
schedules are last stages of button animations. -/
theorem fire_frame {s s' : St} {t : Timer} (h : fire s t = some s') :
    classesOf s' = classesOf s ∧ s'.innerWidth = s.innerWidth ∧ s'.now = s.now ∧
      ∃ N, s'.timers = s.timers ++ N ∧ OnlyBtnReset N := by
  have hnil : OnlyBtnReset [] := fun u hu => absurd hu (List.not_mem_nil u)
  cases ha : t.action with
  | fallback =>
    simp only [fire, ha] at h
    cases hv : s.c.videoBackground with
    | none => simp [onFallbackTimer, hv] at h
    | some v =>
      have hv' : ({ s with fired := s.fired ++ [(s.now, TimerAction.fallback)] } :
          St).c.videoBackground = some v := hv
      rw [onFallbackTimer_eq hv'] at h
      split at h
      · rw [← Option.some.inj h]
        exact ⟨rfl, rfl, rfl, [], (List.append_nil _).symm, hnil⟩
      · rw [fallbackToAnimated_eq hv'] at h
        rw [← Option.some.inj h]
        refine ⟨(classesOf_setAnimatedOpacity _ _).trans (classesOf_setStyle _ _ _), ?_, ?_, [],
          ?_, hnil⟩
        · exact ((ElemsOnly.ofSetStyle _ _ _).andThen
            (elemsOnly_setAnimatedOpacity _ _)).innerWidth
        · exact ((ElemsOnly.ofSetStyle _ _ _).andThen (elemsOnly_setAnimatedOpacity _ _)).now
        · rw [List.append_nil]
          exact ((ElemsOnly.ofSetStyle _ _ _).andThen (elemsOnly_setAnimatedOpacity _ _)).timers
  | btnGrow b =>
    simp only [fire, ha] at h
    rw [← Option.some.inj h]
    refine ⟨classesOf_onBtnGrow b _, rfl, rfl,
      [⟨s.nextTimer, s.now + 150, TimerAction.btnReset b⟩], rfl, ?_⟩
    intro u hu
    rw [List.mem_singleton] at hu
    exact ⟨b, by rw [hu]⟩
  | btnReset b =>
    simp only [fire, ha] at h
    rw [← Option.some.inj h]
    exact ⟨classesOf_onBtnReset b _, rfl, rfl, [], (List.append_nil _).symm, hnil⟩
  | orient =>
    simp only [fire, ha] at h
    rw [← Option.some.inj h]
    exact ⟨classesOf_onOrientTimer _, (elemsOnly_onOrientTimer _).innerWidth,
      (elemsOnly_onOrientTimer _).now, [],
      by rw [List.append_nil]; exact (elemsOnly_onOrientTimer _).timers, hnil⟩
  | resize =>
    simp only [fire, ha] at h
    rw [← Option.some.inj h]
    exact ⟨classesOf_onResizeTimer _, (elemsOnly_onResizeTimer _).innerWidth,
      (elemsOnly_onResizeTimer _).now, [],
      by rw [List.append_nil]; exact (elemsOnly_onResizeTimer _).timers, hnil⟩

theorem foldlM_cons_some {s s' : St} {t : Timer} {l : List Timer}
    (h : (t :: l).foldlM fire s = some s') :
    ∃ s1, fire s t = some s1 ∧ l.foldlM fire s1 = some s' := by
  rw [List.foldlM_cons] at h
  cases h1 : fire s t with
  | none => rw [h1] at h; simp at h
  | some s1 => rw [h1] at h; exact ⟨s1, rfl, by simpa using h⟩

theorem fold_frame : ∀ (l : List Timer) (s s' : St), l.foldlM fire s = some s' →
    classesOf s' = classesOf s ∧ s'.innerWidth = s.innerWidth ∧ s'.now = s.now ∧
      ∃ N, s'.timers = s.timers ++ N ∧ OnlyBtnReset N
  | [], s, s', h => by
    have hs : s = s' := by simpa using h
    subst hs
    exact ⟨rfl, rfl, rfl, [], (List.append_nil _).symm,
      fun u hu => absurd hu (List.not_mem_nil u)⟩
  | t :: l, s, s', h => by
    obtain ⟨s1, h1, h2⟩ := foldlM_cons_some h
    obtain ⟨c1, w1, n1, N1, t1, o1⟩ := fire_frame h1
    obtain ⟨c2, w2, n2, N2, t2, o2⟩ := fold_frame l s1 s' h2
    refine ⟨c2.trans c1, w2.trans w1, n2.trans n1, N1 ++ N2,
      by rw [t2, t1, List.append_assoc], ?_⟩
    intro u hu
    rcases List.mem_append.mp hu with hu | hu
    · exact o1 u hu
    · exact o2 u hu

/-- The last stage of a button animation writes the transform only. -/
theorem fold_btnReset_display : ∀ (l : List Timer) (s s' : St), OnlyBtnReset l →
    l.foldlM fire s = some s' →
    ∀ j, (s'.styleOf j).map (fun st => st.display) = (s.styleOf j).map (fun st => st.display)
  | [], s, s', _, h, _ => by
    have hs : s = s' := by simpa using h
    rw [hs]
  | t :: l, s, s', ho, h, j => by
    obtain ⟨s1, h1, h2⟩ := foldlM_cons_some h
    obtain ⟨b, hb⟩ := ho t (List.mem_cons_self t l)
    have ih := fold_btnReset_display l s1 s'
      (fun u hu => ho u (List.mem_cons_of_mem t hu)) h2 j
    rw [ih]
    simp only [fire, hb] at h1
    rw [← Option.some.inj h1]
    exact styleOf_setStyle_keep _ b j _ (fun st => st.display) (fun _ => rfl)

theorem foldlM_append_some : ∀ (l1 l2 : List Timer) (s s' : St),
    (l1 ++ l2).foldlM fire s = some s' →
    ∃ sa, l1.foldlM fire s = some sa ∧ l2.foldlM fire sa = some s'
  | [], _, s, _, h => ⟨s, rfl, h⟩
  | t :: l1, l2, s, s', h => by
    have h' : (t :: (l1 ++ l2)).foldlM fire s = some s' := h
    obtain ⟨s1, e1, e2⟩ := foldlM_cons_some h'
    obtain ⟨sa, ea, eb⟩ := foldlM_append_some l1 l2 s1 s' e2
    exact ⟨sa, by rw [List.foldlM_cons, e1]; exact ea, eb⟩

theorem onlyBtnReset_filter {l : List Timer} (p : Timer → Bool) (h : OnlyBtnReset l) :
    OnlyBtnReset (l.filter p) :=
  fun u hu => h u (List.mem_filter.mp hu).1

/-- A millisecond in which the pending resize timer `r` is not yet due: `r` stays
in the queue, followed only by last stages of button animations. -/
theorem tick_waiting {s s' : St} {r : Timer} {A B : List Timer} (ht : tick s = some s')
    (hq : s.timers = A ++ r :: B) (hB : OnlyBtnReset B) (hnd : ¬ r.due ≤ s.now + 1) :
    classesOf s' = classesOf s ∧ s'.innerWidth = s.innerWidth ∧ s'.now = s.now + 1 ∧
      ∃ A' B', s'.timers = A' ++ r :: B' ∧ OnlyBtnReset B' := by
  unfold tick at ht
  obtain ⟨hc, hw, hn, N, hN, hoN⟩ := fold_frame _ _ _ ht
  refine ⟨hc, hw, hn, A.filter (fun t => !decide (t.due ≤ s.now + 1)),
    B.filter (fun t => !decide (t.due ≤ s.now + 1)) ++ N, ?_, ?_⟩
  · rw [hN]
    simp only [hq, List.filter_append, List.filter_cons, hnd, decide_False, Bool.not_false,
      if_true, List.append_assoc, List.cons_append]
  · intro u hu
    rcases List.mem_append.mp hu with hu | hu
    · exact onlyBtnReset_filter _ hB u hu
    · exact hoN u hu

/-- The millisecond in which the pending resize timer `r` is due: whatever else
runs in it, the container ends with the display chosen by the debounced body. -/
theorem tick_firing {s s' : St} {r : Timer} {A B : List Timer} {vc : Nat}
    (ht : tick s = some s') (hq : s.timers = A ++ r :: B) (hB : OnlyBtnReset B)
    (hr : r.action = TimerAction.resize) (hd : r.due ≤ s.now + 1)
    (hvc : querySelectorClass "video-background" s.elems = some vc) :
    (s'.styleOf vc).map (fun st => st.display) =
      some (if s.innerWidth ≤ 768 then "none" else "block") := by
  unfold tick at ht
  have hdue : s.timers.filter (fun t => decide (t.due ≤ s.now + 1)) =
      A.filter (fun t => decide (t.due ≤ s.now + 1)) ++
        r :: B.filter (fun t => decide (t.due ≤ s.now + 1)) := by
    simp only [hq, List.filter_append, List.filter_cons, hd, decide_True, if_true]
  simp only [hdue] at ht
  obtain ⟨sa, ea, eb⟩ := foldlM_append_some _ _ _ _ ht
  obtain ⟨sb, er, ec⟩ := foldlM_cons_some eb
  obtain ⟨hca, hwa, _⟩ := fold_frame _ _ _ ea
  rw [fold_btnReset_display _ sb s' (onlyBtnReset_filter _ hB) ec vc]
  simp only [fire, hr] at er
  rw [← Option.some.inj er]
  have hq' : querySelectorClass "video-background"
      ({ sa with fired := sa.fired ++ [(sa.now, TimerAction.resize)] } : St).elems = some vc := by
    have hcl : classesOf sa = classesOf s := hca
    rw [← hvc]
    exact querySelectorClass_congr _ _ _ hcl
  rw [onResizeTimer_display _ vc hq']
  have hw' : ({ sa with fired := sa.fired ++ [(sa.now, TimerAction.resize)] } : St).innerWidth =
      s.innerWidth := hwa
  rw [hw']

/-- While the pending resize timer `r` is not due, it stays in the queue, followed
only by last stages of button animations, and no class list changes. -/
theorem advance_waiting {s : St} {r : Timer} :
    ∀ (k : Nat) (s' : St) (A B : List Timer), s.timers = A ++ r :: B → OnlyBtnReset B →
      s.now + k < r.due → advance k s = some s' →
      classesOf s' = classesOf s ∧ s'.innerWidth = s.innerWidth ∧ s'.now = s.now + k ∧
        ∃ A' B', s'.timers = A' ++ r :: B' ∧ OnlyBtnReset B'
  | 0, s', A, B, hq, hB, _, h => by
    have hs : s = s' := by simpa [advance, run] using h
    subst hs
    exact ⟨rfl, rfl, rfl, A, B, hq, hB⟩
  | k + 1, s', A, B, hq, hB, hk, h => by
    rw [advance_succ] at h
    cases h2 : advance k s with
    | none => rw [h2] at h; simp at h
    | some s2 =>
      rw [h2] at h
      have ht : tick s2 = some s' := by simpa using h
      obtain ⟨c2, w2, n2, A2, B2, q2, o2⟩ :=
        advance_waiting k s2 A B hq hB (by omega) h2
      obtain ⟨c3, w3, n3, A3, B3, q3, o3⟩ :=
        tick_waiting ht q2 o2 (by rw [n2]; omega)
      exact ⟨c3.trans c2, w3.trans w2, by rw [n3, n2]; omega, A3, B3, q3, o3⟩

/-! ## Example pages -/

/-- An inline style with nothing set. -/
def blank : Style := ⟨"", "", "", "", "", "", Transform.css ""⟩

/-- A page with a video in its container, an animated background, a button and
two floating shapes. -/
def demoElems : List Elem :=
  [ ⟨"body", [], none, blank⟩,
    ⟨"div", ["video-background"], some 0, blank⟩,
    ⟨"video", [], some 1, blank⟩,
    ⟨"div", ["animated-bg"], some 0, blank⟩,
    ⟨"a", ["animated-btn"], some 0, blank⟩,
    ⟨"div", ["floating-shape"], some 0, blank⟩,
    ⟨"div", ["floating-shape"], some 0, blank⟩ ]

/-- The example page on a desktop screen, 1024 by 768, without touch. -/
def desktopPage : Page :=
  { innerWidth := 1024, innerHeight := 768, hasTouch := false, reducedMotion := false,
    readyState := 0, videoPaused := true, elems := demoElems }

/-- The example page on a phone, 400 by 800, with touch. -/
def phonePage : Page :=
  { innerWidth := 400, innerHeight := 800, hasTouch := true, reducedMotion := false,
    readyState := 0, videoPaused := true, elems := demoElems }

/-- A desktop page whose video element is itself the first `.animated-bg`. -/
def aliasPage : Page :=
  { innerWidth := 1024, innerHeight := 768, hasTouch := false, reducedMotion := false,
    readyState := 0, videoPaused := true,
    elems := [ ⟨"body", [], none, blank⟩,
               ⟨"div", ["video-background"], some 0, blank⟩,
               ⟨"video", ["animated-bg"], some 1, blank⟩ ] }

/-- A small-screen page with an empty video container and no video. -/
def plainPage : Page :=
  { innerWidth := 500, innerHeight := 800, hasTouch := false, reducedMotion := false,
    readyState := 0, videoPaused := true,
    elems := [ ⟨"body", [], none, blank⟩,
               ⟨"div", ["video-background"], some 0, blank⟩,
               ⟨"div", ["card"], some 0, blank⟩ ] }

/-! ## The claims -/

/-- C1, counterexample: on `aliasPage` (width 1024, video present, the video
carrying the class `animated-bg`) the `canplay` listener leaves the video's
opacity at `'0'`, not `'1'`. -/
theorem canplay_alias_counterexample :
    768 < aliasPage.innerWidth ∧ querySelectorVideo aliasPage.elems = some 2 ∧
    ((load aliasPage).bind (dispatch Event.canplay)).bind
      (fun s => (s.styleOf 2).map (fun st => st.opacity)) = some "0" := by
  decide

/-- C1, amended: on a page loaded with width above 768 and a video present,
handling `canplay` in any reachable state marks the video `loaded`, sets the
opacity of the animated background to `'0'` when there is one, and leaves the
video's opacity at `'1'` unless the video is itself the animated background. -/
theorem canplay_shows_video (p : Page) (evs : List Event) (s : St) (v : Nat)
    (hw : 768 < p.innerWidth) (hv : querySelectorVideo p.elems = some v)
    (hs : (load p).bind (run evs) = some s) :
    ∃ s', dispatch Event.canplay s = some s' ∧
      s'.hasClass v "loaded" = true ∧
      (∀ a, querySelectorClass "animated-bg" p.elems = some a →
        (s'.styleOf a).map (fun st => st.opacity) = some "0") ∧
      (querySelectorClass "animated-bg" p.elems ≠ some v →
        (s'.styleOf v).map (fun st => st.opacity) = some "1") := by
  have hi := reach_inv hs
  have hvb : s.c.videoBackground = some v := by rw [hi.c_eq]; exact hv
  have hd : s.c.desktop = true := by
    rw [hi.c_eq]
    simp [closureOf, hv, hw]
  have hab : s.c.animatedBg = querySelectorClass "animated-bg" p.elems := by rw [hi.c_eq]; rfl
  have hlen : v < s.elems.length := by rw [hi.len]; exact querySelectorVideo_lt hv
  have hvb0 : ({ s with defaultPrevented := false } : St).c.videoBackground = some v := hvb
  refine ⟨_, by simp only [dispatch, hd, if_true]; exact onCanplay_eq hvb0, ?_, ?_, ?_⟩
  · rw [hasClass_setAnimatedOpacity, hasClass_setStyle]
    exact hasClass_addClass _ _ hlen
  · intro a ha
    have hal : a < s.elems.length := by rw [hi.len]; exact querySelectorClass_lt ha
    rw [opacity_setAnimatedOpacity _ _ (by rw [← ha]; exact hab)]
    have hl2 : a < ((({ s with defaultPrevented := false } : St).addClass v "loaded").setStyle v
        (fun st => { st with opacity := "1" })).elems.length := by
      simp only [St.setStyle, St.addClass, modifyAt_length]
      exact hal
    obtain ⟨st, hst⟩ := styleOf_of_lt _ hl2
    rw [hst]
    rfl
  · intro hne
    rw [styleOf_setAnimatedOpacity_ne _ _ (by rw [setStyle_c, addClass_c]; rw [← hab] at hne; exact hne),
      styleOf_setStyle_eq, styleOf_addClass]
    obtain ⟨st, hst⟩ := styleOf_of_lt ({ s with defaultPrevented := false } : St) hlen
    rw [hst]
    rfl

/-- C1, amended, on the example desktop page right after the load. -/
theorem canplay_shows_video_witness :
    ∃ s s', load desktopPage = some s ∧ dispatch Event.canplay s = some s' ∧
      s'.hasClass 2 "loaded" = true ∧
      (s'.styleOf 3).map (fun st => st.opacity) = some "0" ∧
      (s'.styleOf 2).map (fun st => st.opacity) = some "1" := by
  obtain ⟨s, hs⟩ : ∃ s, load desktopPage = some s := ⟨_, rfl⟩
  obtain ⟨s', h1, h2, h3, h4⟩ :=
    canplay_shows_video desktopPage [] s 2 (by decide) (by decide) (by rw [hs]; rfl)
  exact ⟨s, s', hs, h1, h2, h3 3 (by decide), h4 (by decide)⟩

/-- C7: for every page, whichever of the queried elements exist, the load handler
and every callback run to completion without reading a property of `null`, for
every sequence of events; and a match for `.video-background video` implies a match
for `.video-background`, which is what makes the unguarded `videoContainer.style`
of the small-screen branch safe. -/
theorem no_null_dereference (p : Page) (evs : List Event) :
    ((load p).bind (run evs)).isSome = true ∧
    ((querySelectorVideo p.elems).isSome = true →
      (querySelectorClass "video-background" p.elems).isSome = true) := by
  constructor
  · obtain ⟨s0, h0, i0⟩ := load_inv p
    obtain ⟨s1, h1, _⟩ := run_inv evs s0 i0
    rw [h0, Option.some_bind, h1]
    rfl
  · intro hv
    obtain ⟨v, hv'⟩ := Option.isSome_iff_exists.mp hv
    obtain ⟨vc, hvc⟩ := videoContainer_of_video hv'
    rw [hvc]
    rfl

/-- C7 on the phone page, where the small-screen branch runs. -/
theorem no_null_dereference_witness :
    (querySelectorVideo phonePage.elems).isSome = true ∧
    ((load phonePage).bind (run [Event.orientationchange, Event.tick])).isSome = true ∧
    (querySelectorClass "video-background" phonePage.elems).isSome = true :=
  ⟨by decide,
   (no_null_dereference phonePage [Event.orientationchange, Event.tick]).1,
   (no_null_dereference phonePage [Event.orientationchange, Event.tick]).2 (by decide)⟩

/-- An appended style sheet hides the video container: it has a rule for
`.video-background` with `display: none !important`. -/
def hidesVideoBackground (sheets : List StyleSheet) : Bool :=
  sheets.any (fun sheet => sheet.any (fun r =>
    decide (".video-background" ∈ r.selectors) && decide (⟨"display", "none", true⟩ ∈ r.decls)))

/-- C2, counterexample: `plainPage` is 500 wide and has no video; after the load
handler its body has neither the gradient background nor the animation, while
the container is hidden by the appended rule. -/
theorem small_screen_counterexample :
    plainPage.innerWidth ≤ 768 ∧
    (load plainPage).bind (fun s => (s.styleOf bodyIdx).map
      (fun st => (st.background, st.animation))) = some ("", "") ∧
    (load plainPage).map (fun s => hidesVideoBackground s.appended) = some true := by
  decide

/-- C2, amended: on a page of width at most 768 the load handler returns and the
video container is hidden by the appended rule
`.video-background { display: none !important }`; when the page has a video, the
container exists and also has inline display `'none'`, and the body has the
gradient background, its size and the animation
`'gradientShift 15s ease infinite'`. -/
theorem small_screen_hides_video (p : Page) (hw : p.innerWidth ≤ 768) :
    ∃ s, load p = some s ∧ hidesVideoBackground s.appended = true ∧
      ∀ v, querySelectorVideo p.elems = some v →
        ∃ vc, querySelectorClass "video-background" p.elems = some vc ∧
          (s.styleOf vc).map (fun st => st.display) = some "none" ∧
          (s.styleOf bodyIdx).map
              (fun st => (st.background, st.backgroundSize, st.animation)) =
            some ("linear-gradient(-45deg, #ff9a9e, #fecfef, #f093fb, #f5576c)", "400% 400%",
              "gradientShift 15s ease infinite") := by
  obtain ⟨s1, h1, _⟩ := loadVideo_inv p
  have hw' : ¬ 768 < p.innerWidth := by omega
  refine ⟨loadRest p s1, by simp [load, h1], ?_, ?_⟩
  · rw [loadRest_appended]
    have hm : hidesVideoBackground [mobileSheet] = true := by decide
    have hc : (s1.c.isTouchDevice || decide (p.innerWidth ≤ 768)) = true := by simp [hw]
    rw [hc, if_pos rfl]
    unfold hidesVideoBackground at hm ⊢
    rw [List.any_append, List.any_append, hm]
    simp
  · intro v hv
    obtain ⟨vc, hvc⟩ := videoContainer_of_video hv
    have hv' : (initialSt p).c.videoBackground = some v := hv
    have hvc' : (initialSt p).c.videoContainer = some vc := hvc
    have hlv : vc < (initialSt p).elems.length := querySelectorClass_lt hvc
    rw [loadVideo_small hv' hw' hvc'] at h1
    rw [← Option.some.inj h1]
    refine ⟨vc, hvc, ?_, ?_⟩
    · rw [loadRest_keep (fun st => st.display) (fun _ _ => rfl),
        styleOf_setStyle_keep _ bodyIdx vc gradientBody (fun st => st.display) (fun _ => rfl),
        styleOf_setStyle_eq]
      obtain ⟨st, hst⟩ := styleOf_of_lt _ hlv
      rw [hst]
      rfl
    · rw [loadRest_keep (fun st => (st.background, st.backgroundSize, st.animation))
        (fun _ _ => rfl), styleOf_setStyle_eq]
      have hl0 : bodyIdx <
          ((initialSt p).setStyle vc (fun st => { st with display := "none" })).elems.length := by
        simp only [St.setStyle, modifyAt_length, bodyIdx]
        omega
      obtain ⟨st, hst⟩ := styleOf_of_lt _ hl0
      rw [hst]
      rfl

/-- C2, amended, on the phone page. -/
theorem small_screen_hides_video_witness :
    ∃ s, load phonePage = some s ∧ hidesVideoBackground s.appended = true ∧
      ∃ vc, querySelectorClass "video-background" phonePage.elems = some vc ∧
        (s.styleOf vc).map (fun st => st.display) = some "none" ∧
        (s.styleOf bodyIdx).map (fun st => (st.background, st.backgroundSize, st.animation)) =
          some ("linear-gradient(-45deg, #ff9a9e, #fecfef, #f093fb, #f5576c)", "400% 400%",
            "gradientShift 15s ease infinite") := by
  obtain ⟨s, h1, h2, h3⟩ := small_screen_hides_video phonePage (by decide)
  exact ⟨s, h1, h2, h3 2 (by decide)⟩

/-- The example desktop page with a video that can already play at load. -/
def readyPage : Page :=
  { desktopPage with readyState := 4 }

/-- C4, counterexample: on the example desktop page the rejection of the `play()`
made when the tab becomes visible again, and the rejection of the immediate
`play()` (video ready at load), leave the video's inline display unset and the
animated background's opacity unset; and on the phone page (width 400, video
present) the `error` listener is not registered, so an `error` event leaves both
unset as well. -/
theorem resume_rejection_counterexample :
    ((load desktopPage).bind (run [Event.visibilitychange false,
        Event.playSettled PlayOrigin.resume false])).bind
      (fun s => (s.styleOf 2).map (fun st => st.display)) = some "" ∧
    ((load desktopPage).bind (run [Event.visibilitychange false,
        Event.playSettled PlayOrigin.resume false])).bind
      (fun s => (s.styleOf 3).map (fun st => st.opacity)) = some "" ∧
    ((load readyPage).bind (run [Event.playSettled PlayOrigin.immediate false])).bind
      (fun s => (s.styleOf 2).map (fun st => st.display)) = some "" ∧
    ((load phonePage).bind (run [Event.error])).bind
      (fun s => (s.styleOf 2).map (fun st => st.display)) = some "" ∧
    ((load phonePage).bind (run [Event.error])).bind
      (fun s => (s.styleOf 3).map (fun st => st.opacity)) = some "" := by
  decide

/-- C4, amended: on a page loaded with width above 768 and a video (the desktop
branch of line 18, where the listeners are registered), in every reachable state
the `error` event and the rejection of the `play()` made after `loadeddata` hide
the video (display `'none'`) and set the animated background's opacity to `'1'`
when there is one; the rejections of the `play()` made on the tab becoming
visible and of the immediate `play()` change no element. -/
theorem playback_failure_falls_back (p : Page) (evs : List Event) (s : St) (v : Nat)
    (hw : 768 < p.innerWidth) (hv : querySelectorVideo p.elems = some v)
    (hs : (load p).bind (run evs) = some s) :
    (∃ s', dispatch Event.error s = some s' ∧
      Fallen v (querySelectorClass "animated-bg" p.elems) s') ∧
    (PlayOrigin.loadeddata ∈ s.pendingPlays →
      ∃ s', dispatch (Event.playSettled PlayOrigin.loadeddata false) s = some s' ∧
        Fallen v (querySelectorClass "animated-bg" p.elems) s') ∧
    (∃ s', dispatch (Event.playSettled PlayOrigin.resume false) s = some s' ∧
      s'.elems = s.elems) ∧
    (∃ s', dispatch (Event.playSettled PlayOrigin.immediate false) s = some s' ∧
      s'.elems = s.elems) := by
  obtain ⟨hvb, hd, hlen, hab, hal⟩ := reach_desktop hw hv hs
  refine ⟨?_, ?_, ?_, ?_⟩
  · have hvb0 : ({ s with defaultPrevented := false } : St).c.videoBackground = some v := hvb
    have hf := fallen_fallback (s := { s with defaultPrevented := false }) hlen hal
    have hab0 : ({ s with defaultPrevented := false } : St).c.animatedBg =
        querySelectorClass "animated-bg" p.elems := hab
    rw [hab0] at hf
    exact ⟨_, by simp only [dispatch, hd, if_true, onError]; exact fallbackToAnimated_eq hvb0, hf⟩
  · intro hm
    have hvb0 : (settle PlayOrigin.loadeddata s).c.videoBackground = some v := hvb
    have hf := fallen_fallback (s := settle PlayOrigin.loadeddata s) hlen hal
    have hab0 : (settle PlayOrigin.loadeddata s).c.animatedBg =
        querySelectorClass "animated-bg" p.elems := hab
    rw [hab0] at hf
    exact ⟨_, by simp only [dispatch, hm, if_true, onPlaySettled]
                 exact fallbackToAnimated_eq hvb0, hf⟩
  · by_cases hm : PlayOrigin.resume ∈ s.pendingPlays
    · exact ⟨settle PlayOrigin.resume s,
        by simp only [dispatch, hm, if_true, onPlaySettled]; rfl, rfl⟩
    · exact ⟨s, by simp only [dispatch, hm]; rfl, rfl⟩
  · by_cases hm : PlayOrigin.immediate ∈ s.pendingPlays
    · exact ⟨settle PlayOrigin.immediate s,
        by simp only [dispatch, hm, if_true, onPlaySettled]; rfl, rfl⟩
    · exact ⟨s, by simp only [dispatch, hm]; rfl, rfl⟩

/-- C4, amended, on the example desktop page after a `loadeddata` event. -/
theorem playback_failure_falls_back_witness :
    ∃ s, (load desktopPage).bind (run [Event.loadeddata]) = some s ∧
      PlayOrigin.loadeddata ∈ s.pendingPlays ∧
      (∃ s', dispatch Event.error s = some s' ∧
        Fallen 2 (querySelectorClass "animated-bg" desktopPage.elems) s') ∧
      (∃ s', dispatch (Event.playSettled PlayOrigin.loadeddata false) s = some s' ∧
        Fallen 2 (querySelectorClass "animated-bg" desktopPage.elems) s') := by
  obtain ⟨s, hs⟩ : ∃ s, (load desktopPage).bind (run [Event.loadeddata]) = some s := ⟨_, rfl⟩
  have hm : PlayOrigin.loadeddata ∈ s.pendingPlays := by
    have h := Option.some.inj hs
    rw [← h]
    decide
  have h := playback_failure_falls_back desktopPage [Event.loadeddata] s 2 (by decide)
    (by decide) hs
  exact ⟨s, hs, hm, h.1, h.2.1 hm⟩

/-- The property of claim C5: the sheet has a rule for every element and the
`::before` / `::after` pseudo-elements that sets `animation-duration` and
`transition-duration` to `0.01ms` with `!important`, and a rule for
`.floating-shape` that sets `animation: none` with `!important`. -/
def forcesReducedMotion (sheet : StyleSheet) : Bool :=
  sheet.any (fun r => decide (r.selectors = ["*", "*::before", "*::after"]) &&
      decide (⟨"animation-duration", "0.01ms", true⟩ ∈ r.decls) &&
      decide (⟨"transition-duration", "0.01ms", true⟩ ∈ r.decls)) &&
    sheet.any (fun r => decide (".floating-shape" ∈ r.selectors) &&
      decide (⟨"animation", "none", true⟩ ∈ r.decls))

/-- C5: the load handler returns, and the style sheets it appended that force
reduced motion are exactly the one sheet of lines 266-283 when the media query
matches, and none when it does not. -/
theorem reduced_motion_sheet (p : Page) :
    ∃ s, load p = some s ∧
      s.appended.filter forcesReducedMotion =
        (if p.reducedMotion then [reducedMotionSheet] else []) ∧
      forcesReducedMotion reducedMotionSheet = true := by
  obtain ⟨s1, h1, _⟩ := loadVideo_inv p
  have ha : s1.appended = [] := loadVideo_appended h1
  refine ⟨loadRest p s1, by simp [load, h1], ?_, by decide⟩
  rw [loadRest_appended, ha]
  have hm : forcesReducedMotion mobileSheet = false := by decide
  have hr : forcesReducedMotion reducedMotionSheet = true := by decide
  cases p.reducedMotion <;>
    cases (s1.c.isTouchDevice || decide (p.innerWidth ≤ 768)) <;>
    simp [List.filter, hm, hr]

/-- C6: on a page loaded with width above 768 and a video, the load handler
schedules exactly the fallback timer, due at 10000 ms; when that callback runs in
any reachable state it returns, and if the video lacks the class `loaded` the
video is hidden and the animated background's opacity is `'1'`, while if the
video has the class no element is changed. -/
theorem fallback_timer (p : Page) (evs : List Event) (s : St) (v id due : Nat)
    (hw : 768 < p.innerWidth) (hv : querySelectorVideo p.elems = some v)
    (hs : (load p).bind (run evs) = some s) :
    (∃ s0, load p = some s0 ∧ s0.timers = [⟨1, 10000, TimerAction.fallback⟩]) ∧
    ∃ s', fire s ⟨id, due, TimerAction.fallback⟩ = some s' ∧
      (s.hasClass v "loaded" = false →
        Fallen v (querySelectorClass "animated-bg" p.elems) s') ∧
      (s.hasClass v "loaded" = true → s'.elems = s.elems) := by
  obtain ⟨hvb, _, hlen, hab, hal⟩ := reach_desktop hw hv hs
  constructor
  · have hv' : (initialSt p).c.videoBackground = some v := hv
    obtain ⟨s1, h1⟩ : ∃ s1, loadVideo p (initialSt p) = some s1 := ⟨_, loadVideo_desktop hv' hw⟩
    have ht : s1.timers = [⟨1, 10000, TimerAction.fallback⟩] := by
      rw [loadVideo_desktop hv' hw] at h1
      rw [← Option.some.inj h1]
      split <;> rfl
    refine ⟨loadRest p s1, by simp [load, h1], ?_⟩
    rw [loadRest_timers, ht]
  · have hvb' : ({ s with fired := s.fired ++ [(s.now, TimerAction.fallback)] } :
        St).c.videoBackground = some v := hvb
    have hfire : fire s ⟨id, due, TimerAction.fallback⟩ =
        onFallbackTimer { s with fired := s.fired ++ [(s.now, TimerAction.fallback)] } := rfl
    have hcl : ({ s with fired := s.fired ++ [(s.now, TimerAction.fallback)] } : St).hasClass
        v "loaded" = s.hasClass v "loaded" := rfl
    rw [hfire, onFallbackTimer_eq hvb', hcl]
    cases hc : s.hasClass v "loaded" with
    | false =>
      have hf := fallen_fallback
        (s := { s with fired := s.fired ++ [(s.now, TimerAction.fallback)] }) hlen hal
      have hab0 : ({ s with fired := s.fired ++ [(s.now, TimerAction.fallback)] } :
          St).c.animatedBg = querySelectorClass "animated-bg" p.elems := hab
      rw [hab0] at hf
      refine ⟨_, ?_, fun _ => hf, fun h => absurd h (by simp)⟩
      simp only [Bool.false_eq_true, if_false]
      exact fallbackToAnimated_eq hvb'
    | true =>
      exact ⟨{ s with fired := s.fired ++ [(s.now, TimerAction.fallback)] }, by simp,
        fun h => absurd h (by simp), fun _ => rfl⟩

/-- C6 on the example desktop page: right after the load the video is not
`loaded` and the callback falls back; after a `canplay` it changes nothing. -/
theorem fallback_timer_witness :
    (∃ s, load desktopPage = some s ∧ s.hasClass 2 "loaded" = false ∧
      ∃ s', fire s ⟨1, 10000, TimerAction.fallback⟩ = some s' ∧
        Fallen 2 (querySelectorClass "animated-bg" desktopPage.elems) s') ∧
    (∃ s, (load desktopPage).bind (run [Event.canplay]) = some s ∧
      s.hasClass 2 "loaded" = true ∧
      ∃ s', fire s ⟨1, 10000, TimerAction.fallback⟩ = some s' ∧ s'.elems = s.elems) := by
  constructor
  · obtain ⟨s, hs⟩ : ∃ s, load desktopPage = some s := ⟨_, rfl⟩
    have hc : s.hasClass 2 "loaded" = false := by
      rw [← Option.some.inj hs]
      decide
    obtain ⟨_, s', h1, h2, _⟩ :=
      fallback_timer desktopPage [] s 2 1 10000 (by decide) (by decide) (by rw [hs]; rfl)
    exact ⟨s, hs, hc, s', h1, h2 hc⟩
  · obtain ⟨s, hs⟩ : ∃ s, (load desktopPage).bind (run [Event.canplay]) = some s := ⟨_, rfl⟩
    have hc : s.hasClass 2 "loaded" = true := by
      rw [← Option.some.inj hs]
      decide
    obtain ⟨_, s', h1, _, h3⟩ :=
      fallback_timer desktopPage [Event.canplay] s 2 1 10000 (by decide) (by decide) hs
    exact ⟨s, hs, hc, s', h1, h3 hc⟩

/-- C8, failing input: on the example desktop page (video and animated background
present) the events `loadeddata`, rejection of its `play()`, `canplay` leave the
video hidden (display `'none'`) while the animated background's opacity is `'0'`. -/
theorem both_backgrounds_hidden :
    ((load desktopPage).bind (run [Event.loadeddata,
        Event.playSettled PlayOrigin.loadeddata false, Event.canplay])).bind
      (fun s => (s.styleOf 2).map (fun st => st.display)) = some "none" ∧
    ((load desktopPage).bind (run [Event.loadeddata,
        Event.playSettled PlayOrigin.loadeddata false, Event.canplay])).bind
      (fun s => (s.styleOf 3).map (fun st => st.opacity)) = some "0" := by
  decide

theorem onTouchmove_prevented (x y : ℚ) (s : St) (h : s.defaultPrevented = false) :
    (onTouchmove x y s).defaultPrevented = swipeIsVertical s.startX s.startY x y := by
  unfold onTouchmove
  cases hc : swipeIsVertical s.startX s.startY x y
  · simp [h]
  · simp

/-- On a touch device, a `touchstart` followed by events that are not a
`touchstart` and then a `touchmove`: the default is prevented exactly when the
test of line 258 succeeds on the start recorded and the move. -/
theorem touch_then_move {p : Page} {evs : List Event} {s : St}
    (hs : (load p).bind (run evs) = some s) (ht : p.hasTouch = true) (target : Nat)
    (sx sy : ℚ) (mid : List Event) (hmid : ∀ ev ∈ mid, ∀ t x y, ev ≠ Event.touchstart t x y)
    (x y : ℚ) :
    ∃ s', run (Event.touchstart target sx sy :: (mid ++ [Event.touchmove x y])) s = some s' ∧
      s'.defaultPrevented = swipeIsVertical sx sy x y := by
  have hi := reach_inv hs
  have hsw : s.c.swipe = true := by rw [hi.c_eq]; exact ht
  have h1 : dispatch (Event.touchstart target sx sy) s =
      some (onTouchstart sx sy (touchedButtons target s)) := by
    simp only [dispatch, hsw, if_true]
    rfl
  have i0 : Inv (closureOf p) p.elems.length (touchedButtons target s) := by
    unfold touchedButtons
    split
    · exact foldl_inv (Inv (closureOf p) p.elems.length) (fun s b => onBtnTouchstart b s)
        (fun _ _ hs => hs.setStyle _ _) _ _ (hi.of_eq rfl rfl rfl rfl rfl)
    · exact hi.of_eq rfl rfl rfl rfl rfl
  have i1 := inv_onTouchstart sx sy i0
  obtain ⟨s2, h2, i2, x2, y2⟩ := run_start mid _ i1 hmid
  have hsw2 : s2.c.swipe = true := by rw [i2.c_eq, ← hi.c_eq]; exact hsw
  have h3 : dispatch (Event.touchmove x y) s2 =
      some (onTouchmove x y { s2 with defaultPrevented := false }) := by
    simp only [dispatch, hsw2, if_true]
    rfl
  refine ⟨onTouchmove x y { s2 with defaultPrevented := false }, ?_, ?_⟩
  · have h2' : List.foldlM (fun s ev => dispatch ev s)
        (onTouchstart sx sy (touchedButtons target s)) mid = some s2 := h2
    simp [run, List.foldlM_cons, List.foldlM_append, h1, h2', h3]
  · rw [onTouchmove_prevented x y _ rfl]
    have hx : ({ s2 with defaultPrevented := false } : St).startX = sx := x2
    have hy : ({ s2 with defaultPrevented := false } : St).startY = sy := y2
    rw [hx, hy]

/-- When both differences are doubles the test of line 258 is the exact
comparison. -/
theorem swipeIsVertical_exact {sx sy x y : ℚ} (hy : IsDouble (y - sy)) (hx : IsDouble (x - sx)) :
    swipeIsVertical sx sy x y = decide (|y - sy| > |x - sx|) := by
  unfold swipeIsVertical
  show Num.gt (Num.abs (toDouble (y - sy))) (Num.abs (toDouble (x - sx))) = _
  rw [toDouble_exact hy, toDouble_exact hx]
  rfl

/-- The double nearest to `0.7`. -/
def d07 : ℚ := 3152519739159347 / 4503599627370496

/-- The double nearest to `100.7`. -/
def d1007 : ℚ := 7086132538690765 / 70368744177664

/-- C9, counterexample: on the phone page a touch starts at `(0, 0.7)` and moves to
`(100, 100.7)` (the doubles nearest to these).  The vertical displacement exceeds
the horizontal one, `100`, yet the default is not prevented: the difference of line
258 rounds to `100`. -/
theorem swipe_rounding_counterexample :
    phonePage.hasTouch = true ∧ IsDouble d07 ∧ IsDouble d1007 ∧
    |d1007 - d07| > |(100 : ℚ) - 0| ∧
    ∃ s s', (load phonePage).bind (run []) = some s ∧
      run [Event.touchstart 0 0 d07, Event.touchmove 100 d1007] s = some s' ∧
      s'.defaultPrevented = false := by
  refine ⟨rfl, ⟨3152519739159347, -52, by norm_num, by norm_num, by norm_num,
      by norm_num [d07]⟩,
    ⟨7086132538690765, -46, by norm_num, by norm_num, by norm_num, by norm_num [d1007]⟩,
    by norm_num [d07, d1007, abs_of_pos], ?_⟩
  obtain ⟨s, hs⟩ : ∃ s, (load phonePage).bind (run []) = some s := ⟨_, rfl⟩
  obtain ⟨s', h1, h2⟩ := touch_then_move hs rfl 0 0 d07 [] (by simp) 100 d1007
  refine ⟨s, s', hs, h1, ?_⟩
  rw [h2]
  have hy : toDouble (d1007 - d07) = Num.fin 100 := by
    have h := toDouble_eval (q := d1007 - d07) (m := 7036874417766400) (e := -46)
      (by norm_num [d07, d1007]) (by norm_num) (by norm_num [d07, d1007, abs_of_pos])
      (by norm_num [d07, d1007, abs_of_pos])
      (roundHalfEven_near (by norm_num [d07, d1007, abs_of_pos, abs_lt]))
      (by norm_num [maxDouble])
    rw [h]
    norm_num [d07, d1007]
  have hx : toDouble ((100 : ℚ) - 0) = Num.fin 100 := by
    rw [sub_zero]
    exact toDouble_exact ⟨100, 0, by norm_num, by norm_num, by norm_num, by norm_num⟩
  show Num.gt (Num.abs (toDouble (d1007 - d07))) (Num.abs (toDouble ((100 : ℚ) - 0))) = false
  rw [hy, hx]
  simp [Num.abs, Num.gt]

/-- C9, amended: on a touch device, after a `touchstart` with first touch at
`(startX, startY)` and any events that are not a `touchstart`, a `touchmove` at
`(clientX, clientY)` has its default prevented exactly when, in double arithmetic,
`Math.abs(clientY - startY) > Math.abs(clientX - startX)`; when both differences
are doubles this is the exact comparison `|clientY - startY| > |clientX - startX|`.
On a device without touch the two document listeners are not registered and a
`touchmove` never has its default prevented. -/
theorem swipe_prevents_vertical (p : Page) (evs : List Event) (s : St)
    (hs : (load p).bind (run evs) = some s) :
    (p.hasTouch = true → ∀ (target : Nat) (startX startY : ℚ) (mid : List Event),
      (∀ ev ∈ mid, ∀ t x y, ev ≠ Event.touchstart t x y) → ∀ clientX clientY : ℚ,
      ∃ s', run (Event.touchstart target startX startY ::
            (mid ++ [Event.touchmove clientX clientY])) s = some s' ∧
        (s'.defaultPrevented = true ↔
          Num.gt (Num.abs (Num.sub (Num.fin clientY) (Num.fin startY)))
            (Num.abs (Num.sub (Num.fin clientX) (Num.fin startX))) = true) ∧
        (IsDouble (clientY - startY) → IsDouble (clientX - startX) →
          (s'.defaultPrevented = true ↔ |clientY - startY| > |clientX - startX|))) ∧
    (p.hasTouch = false → s.c.swipe = false ∧ ∀ clientX clientY : ℚ,
      ∃ s', dispatch (Event.touchmove clientX clientY) s = some s' ∧
        s'.defaultPrevented = false) := by
  constructor
  · intro ht target sx sy mid hmid x y
    obtain ⟨s', h1, h2⟩ := touch_then_move hs ht target sx sy mid hmid x y
    refine ⟨s', h1, ?_, ?_⟩
    · rw [h2]
      rfl
    · intro hy hx
      rw [h2, swipeIsVertical_exact hy hx]
      simp
  · intro ht
    have hi := reach_inv hs
    have hsw : s.c.swipe = false := by rw [hi.c_eq]; exact ht
    refine ⟨hsw, fun x y => ⟨{ s with defaultPrevented := false }, ?_, rfl⟩⟩
    simp only [dispatch, hsw]
    rfl

/-- C9, amended, on the phone page: from `(10, 10)` a move to `(12, 40)` is
prevented and a move to `(40, 12)` is not. -/
theorem swipe_prevents_vertical_witness :
    ∃ s, (load phonePage).bind (run []) = some s ∧
      (∃ s', run [Event.touchstart 4 10 10, Event.touchmove 12 40] s = some s' ∧
        s'.defaultPrevented = true) ∧
      (∃ s', run [Event.touchstart 4 10 10, Event.touchmove 40 12] s = some s' ∧
        s'.defaultPrevented = false) := by
  obtain ⟨s, hs⟩ : ∃ s, (load phonePage).bind (run []) = some s := ⟨_, rfl⟩
  have h := (swipe_prevents_vertical phonePage [] s hs).1 (by decide) 4 10 10 []
    (by simp)
  obtain ⟨s1, r1, _, p1⟩ := h 12 40
  obtain ⟨s2, r2, _, p2⟩ := h 40 12
  have d30 : IsDouble ((40 : ℚ) - 10) :=
    ⟨30, 0, by norm_num, by norm_num, by norm_num, by norm_num⟩
  have d2 : IsDouble ((12 : ℚ) - 10) :=
    ⟨2, 0, by norm_num, by norm_num, by norm_num, by norm_num⟩
  refine ⟨s, hs, ⟨s1, r1, (p1 d30 d2).mpr (by norm_num)⟩, ⟨s2, r2, ?_⟩⟩
  cases hd : s2.defaultPrevented with
  | false => rfl
  | true => exact absurd ((p2 d2 d30).mp hd) (by norm_num)

/-- C3: in any reachable state, after a `resize` to width `w` the debounced body
has run exactly once more when 250 ms or more have passed without another event,
and not at all before 250 ms, the width staying `w`; when the 250 ms have passed
the video container, if there is one, has display `'none'` for `w` at most 768
and `'block'` otherwise; a further `resize` less than 250 ms later cancels the
pending run and leaves one pending timer, due 250 ms after it; and the body,
whenever it runs, sets the container's display to `'none'` when the width it reads
is at most 768 and to `'block'` otherwise. -/
theorem resize_debounce (p : Page) (evs : List Event) (s : St) (w h : Nat)
    (hs : (load p).bind (run evs) = some s) :
    ∃ s1, dispatch (Event.resize w h) s = some s1 ∧
      (∀ k, ∃ s2, advance k s1 = some s2 ∧ s2.innerWidth = w ∧
        resizeRuns s2 = resizeRuns s + (if 250 ≤ k then 1 else 0)) ∧
      (∀ vc, querySelectorClass "video-background" s.elems = some vc →
        ∃ s2, advance 250 s1 = some s2 ∧
          (s2.styleOf vc).map (fun st => st.display) =
            some (if w ≤ 768 then "none" else "block")) ∧
      (∀ k, k < 250 → ∀ w2 h2, ∃ s2 s3, advance k s1 = some s2 ∧
        dispatch (Event.resize w2 h2) s2 = some s3 ∧ resizeRuns s3 = resizeRuns s ∧
        ∃ id, pendingResize s3 = [⟨id, s3.now + 250, TimerAction.resize⟩]) ∧
      (∀ (t : St) (vc : Nat), querySelectorClass "video-background" t.elems = some vc →
        ((onResizeTimer t).styleOf vc).map (fun st => st.display) =
          some (if t.innerWidth ≤ 768 then "none" else "block")) := by
  have hi := reach_inv hs
  have hi0 : Inv (closureOf p) p.elems.length
      { s with innerWidth := w, innerHeight := h, defaultPrevented := false } :=
    hi.of_eq rfl rfl rfl rfl rfl
  have hi1 := inv_onResize hi0
  obtain ⟨hp1, hr1, hn1, hw1⟩ := onResize_spec hi0
  have hdue : (onResize { s with innerWidth := w, innerHeight := h, defaultPrevented := false }).now
      < (⟨s.nextTimer, s.now + 250, TimerAction.resize⟩ : Timer).due := by
    rw [hn1]
    show s.now < s.now + 250
    omega
  refine ⟨_, rfl, ?_, ?_, ?_, onResizeTimer_display⟩
  · intro k
    obtain ⟨s2, e2, _, _, w2, r2, _⟩ := advance_pending hi1 hp1 hdue k
    refine ⟨s2, e2, w2.trans hw1, ?_⟩
    rw [r2, hr1, hn1]
    show resizeRuns s + (if s.now + 250 ≤ s.now + k then 1 else 0) = _
    by_cases hk : 250 ≤ k
    · have : s.now + 250 ≤ s.now + k := by omega
      simp [hk, this]
    · have : ¬ s.now + 250 ≤ s.now + k := by omega
      simp [hk, this]
  · intro vc hvc
    obtain ⟨s2, e2, i2, _, _, _, _⟩ := advance_pending hi1 hp1 hdue 249
    obtain ⟨s3, e3, _⟩ := tick_spec i2
    have hq1 : (onResize { s with innerWidth := w, innerHeight := h, defaultPrevented := false }).timers
        = (s.timers.filter (fun t => decide (some t.id ≠ s.resizeTimeout))) ++
          (⟨s.nextTimer, s.now + 250, TimerAction.resize⟩ : Timer) :: [] := rfl
    obtain ⟨c2, w2, n2, A2, B2, q2, o2⟩ := advance_waiting 249 s2 _ [] hq1
      (fun u hu => absurd hu (List.not_mem_nil u)) (by rw [hn1]; show s.now + 249 < s.now + 250; omega)
      e2
    have hvc2 : querySelectorClass "video-background" s2.elems = some vc := by
      rw [← hvc]
      exact querySelectorClass_congr _ _ _ c2
    have hfin := tick_firing e3 q2 o2 rfl
      (by rw [n2, hn1]) hvc2
    refine ⟨s3, by rw [advance_succ, e2]; exact e3, ?_⟩
    rw [hfin, w2, hw1]
  · intro k hk w2 h2
    obtain ⟨s2, e2, i2, _, _, r2, _⟩ := advance_pending hi1 hp1 hdue k
    have i20 : Inv (closureOf p) p.elems.length
        { s2 with innerWidth := w2, innerHeight := h2, defaultPrevented := false } :=
      i2.of_eq rfl rfl rfl rfl rfl
    obtain ⟨hp3, hr3, hn3, _⟩ := onResize_spec i20
    refine ⟨s2, _, e2, rfl, ?_, s2.nextTimer, ?_⟩
    · rw [hr3]
      show resizeRuns s2 = resizeRuns s
      rw [r2, hr1, hn1]
      have : ¬ s.now + 250 ≤ s.now + k := by omega
      show resizeRuns { s with innerWidth := w, innerHeight := h, defaultPrevented := false } +
        (if s.now + 250 ≤ s.now + k then 1 else 0) = resizeRuns s
      rw [if_neg this]
      rfl
    · rw [hp3, hn3]

/-- C3 on the example desktop page: resizing to 600 wide, then 250 ms of quiet. -/
theorem resize_debounce_witness :
    ∃ s s1 s2, (load desktopPage).bind (run []) = some s ∧
      dispatch (Event.resize 600 800) s = some s1 ∧ advance 250 s1 = some s2 ∧
      s2.innerWidth = 600 ∧ resizeRuns s2 = resizeRuns s + 1 ∧
      (s2.styleOf 1).map (fun st => st.display) =
        some (if 600 ≤ 768 then "none" else "block") := by
  obtain ⟨s, hs⟩ : ∃ s, (load desktopPage).bind (run []) = some s := ⟨_, rfl⟩
  obtain ⟨s1, h1, h2, h3, _⟩ := resize_debounce desktopPage [] s 600 800 hs
  obtain ⟨s2, e2, w2, r2⟩ := h2 250
  have hq : querySelectorClass "video-background" s.elems = some 1 := by
    rw [← Option.some.inj hs]
    decide
  obtain ⟨s2', e2', d2⟩ := h3 1 hq
  rw [e2] at e2'
  rw [← Option.some.inj e2'] at d2
  exact ⟨s, s1, s2, hs, h1, e2, w2, by simpa using r2, d2⟩

/-- The `mousemove` listener, when registered: every shape whose two offsets are
finite carries them as its translation. -/
theorem mousemove_spec {s : St} (hp : s.c.parallax = true) (clientX clientY : ℚ) :
    ∃ s', dispatch (Event.mousemove clientX clientY) s = some s' ∧
      ∀ (i shape : Nat) (x y : ℚ),
        (querySelectorAllClass "floating-shape" s.elems)[i]? = some shape →
        parallaxOffset (Num.div (Num.fin clientX) (Num.fin s.innerWidth)) i = Num.fin x →
        parallaxOffset (Num.div (Num.fin clientY) (Num.fin s.innerHeight)) i = Num.fin y →
        (s'.styleOf shape).map (fun st => st.transform) = some (Transform.translate x y) := by
  refine ⟨onMousemove clientX clientY { s with defaultPrevented := false }, ?_, ?_⟩
  · simp only [dispatch, hp, if_true]
    rfl
  · intro i shape x y hsh hx hy
    have h := moveShapes_spec (Num.div (Num.fin clientX) (Num.fin s.innerWidth))
      (Num.div (Num.fin clientY) (Num.fin s.innerHeight))
      (querySelectorAllClass "floating-shape" s.elems) 0
      { s with defaultPrevented := false }
      (querySelectorAllClass_nodup _ _) (querySelectorAllClass_lt _ _) i shape x y hsh
      (by rw [Nat.zero_add]; exact hx) (by rw [Nat.zero_add]; exact hy)
    exact h

/-- The horizontal offset of the first shape for `clientX = 100` in a viewport
1024 wide: every step is exact. -/
theorem offset_100_of_1024 :
    parallaxOffset (Num.div (Num.fin 100) (Num.fin ((1024 : Nat) : ℚ))) 0 =
      Num.fin (-2575 / 256) := by
  have h0 : Num.div (Num.fin 100) (Num.fin ((1024 : Nat) : ℚ)) = Num.fin (25 / 256) := by
    rw [div_fin (by norm_num)]
    have : (100 : ℚ) / ((1024 : Nat) : ℚ) = 25 / 256 := by norm_num
    rw [this]
    exact toDouble_exact ⟨25, -8, by norm_num, by norm_num, by norm_num, by norm_num⟩
  have h1 : toDouble ((25 : ℚ) / 256 - 1 / 2) = Num.fin (-103 / 256) := by
    have : (25 : ℚ) / 256 - 1 / 2 = -103 / 256 := by norm_num
    rw [this]
    exact toDouble_exact ⟨-103, -8, by norm_num, by norm_num, by norm_num, by norm_num⟩
  have h2 : toDouble ((-103 : ℚ) / 256 * ((((0 : Nat) : ℚ) + 1) / 2)) = Num.fin (-103 / 512) := by
    have : (-103 : ℚ) / 256 * ((((0 : Nat) : ℚ) + 1) / 2) = -103 / 512 := by norm_num
    rw [this]
    exact toDouble_exact ⟨-103, -9, by norm_num, by norm_num, by norm_num, by norm_num⟩
  have h3 : toDouble ((-103 : ℚ) / 512 * 50) = Num.fin (-2575 / 256) := by
    have : (-103 : ℚ) / 512 * 50 = -2575 / 256 := by norm_num
    rw [this]
    exact toDouble_exact ⟨-2575, -8, by norm_num, by norm_num, by norm_num, by norm_num⟩
  unfold parallaxOffset
  simp only
  rw [speed_exact (by norm_num : 0 < 2 ^ 32), h0]
  show Num.mul (Num.mul (toDouble ((25 : ℚ) / 256 - 1 / 2)) _) _ = _
  rw [h1]
  show Num.mul (toDouble ((-103 : ℚ) / 256 * ((((0 : Nat) : ℚ) + 1) / 2))) _ = _
  rw [h2]
  exact h3

/-- The vertical offset of the first shape for `clientY = 100` in a viewport 768
high: the division, the subtraction and the last product all round. -/
theorem offset_100_of_768 :
    parallaxOffset (Num.div (Num.fin 100) (Num.fin ((768 : Nat) : ℚ))) 0 =
      Num.fin (-5204355038139733 / 562949953421312) := by
  have h0 : Num.div (Num.fin 100) (Num.fin ((768 : Nat) : ℚ)) =
      Num.fin (4691249611844267 / 36028797018963968) := by
    rw [div_fin (by norm_num)]
    have h := toDouble_eval (q := (100 : ℚ) / ((768 : Nat) : ℚ)) (m := 4691249611844267)
      (e := -55) (by norm_num) (by norm_num) (by norm_num [abs_of_pos])
      (by norm_num [abs_of_pos]) (roundHalfEven_near (by norm_num [abs_of_pos, abs_lt]))
      (by norm_num [maxDouble])
    rw [h]
    norm_num
  have h1 : toDouble ((4691249611844267 : ℚ) / 36028797018963968 - 1 / 2) =
      Num.fin (-3330787224409429 / 9007199254740992) := by
    have h := toDouble_eval (q := (4691249611844267 : ℚ) / 36028797018963968 - 1 / 2)
      (m := 6661574448818858) (e := -54) (by norm_num) (by norm_num)
      (by norm_num [abs_of_neg]) (by norm_num [abs_of_neg])
      (roundHalfEven_tie (by norm_num [abs_of_neg]) (by norm_num)) (by norm_num [maxDouble])
    rw [h]
    norm_num
  have h2 : toDouble ((-3330787224409429 : ℚ) / 9007199254740992 * ((((0 : Nat) : ℚ) + 1) / 2)) =
      Num.fin (-3330787224409429 / 18014398509481984) := by
    have : (-3330787224409429 : ℚ) / 9007199254740992 * ((((0 : Nat) : ℚ) + 1) / 2) =
        -3330787224409429 / 18014398509481984 := by norm_num
    rw [this]
    exact toDouble_exact ⟨-3330787224409429, -54, by norm_num, by norm_num, by norm_num,
      by norm_num⟩
  have h3 : toDouble ((-3330787224409429 : ℚ) / 18014398509481984 * 50) =
      Num.fin (-5204355038139733 / 562949953421312) := by
    have h := toDouble_eval (q := (-3330787224409429 : ℚ) / 18014398509481984 * 50)
      (m := 5204355038139733) (e := -49) (by norm_num) (by norm_num)
      (by norm_num [abs_of_neg]) (by norm_num [abs_of_neg])
      (roundHalfEven_near (by norm_num [abs_of_neg, abs_lt])) (by norm_num [maxDouble])
    rw [h]
    norm_num
  unfold parallaxOffset
  simp only
  rw [speed_exact (by norm_num : 0 < 2 ^ 32), h0]
  show Num.mul (Num.mul (toDouble ((4691249611844267 : ℚ) / 36028797018963968 - 1 / 2)) _) _ = _
  rw [h1]
  show Num.mul (toDouble ((-3330787224409429 : ℚ) / 9007199254740992 *
    ((((0 : Nat) : ℚ) + 1) / 2))) _ = _
  rw [h2]
  exact h3

/-- C10, counterexample: on the example desktop page (1024 by 768, no touch) the
pointer at `(100, 100)` translates the first shape by
`y = -5204355038139733 / 2 ^ 49` (the double `-9.244791666666666`), which is not
`25 * (0 + 1) * (100 / 768 - 1/2) = -1775 / 192`. -/
theorem parallax_rounding_counterexample :
    ∃ s s', (load desktopPage).bind (run []) = some s ∧ s.c.parallax = true ∧
      s.innerWidth = 1024 ∧ s.innerHeight = 768 ∧
      (querySelectorAllClass "floating-shape" s.elems)[0]? = some 5 ∧
      dispatch (Event.mousemove 100 100) s = some s' ∧
      (s'.styleOf 5).map (fun st => st.transform) =
        some (Transform.translate (-2575 / 256) (-5204355038139733 / 562949953421312)) ∧
      (-5204355038139733 / 562949953421312 : ℚ) ≠
        25 * (((0 : Nat) : ℚ) + 1) * (100 / ((768 : Nat) : ℚ) - 1 / 2) := by
  obtain ⟨s, hs⟩ : ∃ s, (load desktopPage).bind (run []) = some s := ⟨_, rfl⟩
  have hW : s.innerWidth = 1024 := by rw [← Option.some.inj hs]; rfl
  have hH : s.innerHeight = 768 := by rw [← Option.some.inj hs]; rfl
  have hpar : s.c.parallax = true := by rw [← Option.some.inj hs]; decide
  have hq : (querySelectorAllClass "floating-shape" s.elems)[0]? = some 5 := by
    rw [← Option.some.inj hs]
    decide
  obtain ⟨s', h1, h2⟩ := mousemove_spec hpar 100 100
  refine ⟨s, s', hs, hpar, hW, hH, hq, h1, ?_, by norm_num⟩
  exact h2 0 5 _ _ hq (by rw [hW]; exact offset_100_of_1024)
    (by rw [hH]; exact offset_100_of_768)

/-- C10, amended: the `mousemove` listener is registered exactly when the device
has no touch and the width at load is above 768; without it a mouse move changes
no element; with it, for a pointer inside a viewport of positive size, the shape
at position `i < 2 ^ 32` of `querySelectorAll('.floating-shape')` is translated by
the doubles `x` and `y` that lines 157-163 compute, each operation rounded to the
nearest double; both are at most `12.5 * (i + 1)` in absolute value and both are
`0` at the centre of the viewport. -/
theorem parallax_offsets (p : Page) (evs : List Event) (s : St)
    (hs : (load p).bind (run evs) = some s) :
    (s.c.parallax = true ↔ (p.hasTouch = false ∧ 768 < p.innerWidth)) ∧
    (s.c.parallax = false → ∀ clientX clientY : ℚ,
      ∃ s', dispatch (Event.mousemove clientX clientY) s = some s' ∧ s'.elems = s.elems) ∧
    (s.c.parallax = true → ∀ clientX clientY : ℚ,
      0 < s.innerWidth → 0 < s.innerHeight →
      0 ≤ clientX → clientX ≤ s.innerWidth → 0 ≤ clientY → clientY ≤ s.innerHeight →
      ∃ s', dispatch (Event.mousemove clientX clientY) s = some s' ∧
        ∀ (i shape : Nat), i < 2 ^ 32 →
          (querySelectorAllClass "floating-shape" s.elems)[i]? = some shape →
          ∃ x y : ℚ,
            parallaxOffset (Num.div (Num.fin clientX) (Num.fin s.innerWidth)) i = Num.fin x ∧
            parallaxOffset (Num.div (Num.fin clientY) (Num.fin s.innerHeight)) i = Num.fin y ∧
            (s'.styleOf shape).map (fun st => st.transform) =
              some (Transform.translate x y) ∧
            |x| ≤ 25 / 2 * ((i : ℚ) + 1) ∧ |y| ≤ 25 / 2 * ((i : ℚ) + 1) ∧
            (clientX = (s.innerWidth : ℚ) / 2 → x = 0) ∧
            (clientY = (s.innerHeight : ℚ) / 2 → y = 0)) := by
  have hi := reach_inv hs
  refine ⟨?_, ?_, ?_⟩
  · rw [hi.c_eq]
    simp [closureOf]
  · intro hp x y
    refine ⟨{ s with defaultPrevented := false }, ?_, rfl⟩
    simp only [dispatch, hp]
    rfl
  · intro hp cx cy hW hH hx0 hx1 hy0 hy1
    obtain ⟨s', h1, h2⟩ := mousemove_spec hp cx cy
    refine ⟨s', h1, ?_⟩
    intro i shape hi32 hsh
    obtain ⟨x, ex, bx⟩ := parallaxOffset_bound hW hx0 hx1 hi32
    obtain ⟨y, ey, bY⟩ := parallaxOffset_bound hH hy0 hy1 hi32
    refine ⟨x, y, ex, ey, h2 i shape x y hsh ex ey, bx, bY, ?_, ?_⟩
    · intro hc
      have h0 := parallaxOffset_centre hW hc hi32
      rw [ex] at h0
      injection h0
    · intro hc
      have h0 := parallaxOffset_centre hH hc hi32
      rw [ey] at h0
      injection h0

/-- C10, amended, on the example desktop page: the pointer at the centre
`(512, 384)` leaves the first shape at `translate(0px, 0px)`. -/
theorem parallax_offsets_witness :
    ∃ s s', (load desktopPage).bind (run []) = some s ∧ s.c.parallax = true ∧
      dispatch (Event.mousemove 512 384) s = some s' ∧
      (s'.styleOf 5).map (fun st => st.transform) = some (Transform.translate 0 0) := by
  obtain ⟨s, hs⟩ : ∃ s, (load desktopPage).bind (run []) = some s := ⟨_, rfl⟩
  have hW : s.innerWidth = 1024 := by rw [← Option.some.inj hs]; rfl
  have hH : s.innerHeight = 768 := by rw [← Option.some.inj hs]; rfl
  have hpar : s.c.parallax = true := by rw [← Option.some.inj hs]; decide
  have hq : (querySelectorAllClass "floating-shape" s.elems)[0]? = some 5 := by
    rw [← Option.some.inj hs]
    decide
  obtain ⟨s', h1, h2⟩ := (parallax_offsets desktopPage [] s hs).2.2 hpar 512 384
    (by rw [hW]; decide) (by rw [hH]; decide) (by norm_num) (by rw [hW]; norm_num)
    (by norm_num) (by rw [hH]; norm_num)
  obtain ⟨x, y, _, _, ht, _, _, cx, cy⟩ := h2 0 5 (by norm_num) hq
  have hx : x = 0 := cx (by rw [hW]; norm_num)
  have hy : y = 0 := cy (by rw [hH]; norm_num)
  rw [hx, hy] at ht
  exact ⟨s, s', hs, hpar, h1, ht⟩

end Demo
